import Mathlib

/-!
Verification development for the vs-write agent backend (Rust sources under
src/src-tauri/src).  Rust code is shallowly embedded: pure functions become
Lean functions, filesystem access becomes an explicit record of query
functions, the agent loop becomes a state-passing recursion over oracle
inputs.  Rust strings are modelled as Lean `String` where only equality,
concatenation and byte length matter, as `List Char` where per-character
scanning matters, and as `List Nat` (UTF-8 bytes) where byte indexing
matters.
-/

namespace VsWrite

/-! ## Basic string helpers (models of Rust str operations) -/

/-- Model of Rust `str::contains(substring)` on character lists. -/
def containsSub (needle : List Char) : List Char → Bool
  | [] => needle.isEmpty
  | c :: rest => needle.isPrefixOf (c :: rest) || containsSub needle rest

/-- Model of Rust `str::to_lowercase` (ASCII-relevant part). -/
def toLowerS (s : String) : String := String.mk (s.data.map Char.toLower)

/-- Model of Rust `str::starts_with` for string patterns. -/
def startsWithS (p s : String) : Bool := p.data.isPrefixOf s.data

/-- Model of Rust `str::ends_with` for string patterns. -/
def endsWithS (p s : String) : Bool := p.data.isSuffixOf s.data

/-- Model of Rust `str::contains` for string patterns. -/
def containsS (needle s : String) : Bool := containsSub needle.data s.data

/-- Split a character list on a separator character, keeping empty segments,
like Rust `str::split`. -/
def splitOnChar (sep : Char) : List Char → List (List Char)
  | [] => [[]]
  | c :: rest =>
    let r := splitOnChar sep rest
    if c = sep then [] :: r
    else
      match r with
      | h :: t => (c :: h) :: t
      | [] => [[c]]

/-! ## src/src-tauri/src/agent/types.rs : ToolRisk and ApprovalMode -/

/-- Risk level for a tool operation (`ToolRisk` in types.rs).  The Rust enum
derives `Ord` with declaration order Low < Medium < High. -/
inductive ToolRisk where
  | low
  | medium
  | high
deriving DecidableEq, Repr

/-- Numeric view of the derived `Ord` on `ToolRisk`. -/
def ToolRisk.toNat : ToolRisk → Nat
  | .low => 0
  | .medium => 1
  | .high => 2

/-- Model of `ToolRisk::for_tool` (types.rs lines 30-45): extension tools
(name containing a colon) default to Medium; known built-ins get the fixed
mapping; unknown tools default to Medium. -/
def ToolRisk.for_tool (tool_name : String) : ToolRisk :=
  if tool_name.data.contains ':' then .medium
  else if tool_name = "read_file" ∨ tool_name = "list_dir" ∨
          tool_name = "glob" ∨ tool_name = "grep" then .low
  else if tool_name = "write_file" ∨ tool_name = "append_file" then .medium
  else if tool_name = "delete_file" ∨ tool_name = "run_shell" then .high
  else .medium

/-- Approval mode for tool execution (`ApprovalMode` in types.rs). -/
inductive ApprovalMode where
  | autoApprove
  | approveDangerous
  | approveWrites
  | approveAll
  | dryRun
deriving DecidableEq, Repr

/-- Model of `ApprovalMode::needs_approval` (types.rs lines 67-75).
`risk >= ToolRisk::High` is the derived order compared via `toNat`. -/
def ApprovalMode.needs_approval (m : ApprovalMode) (risk : ToolRisk) : Bool :=
  match m with
  | .autoApprove => false
  | .approveDangerous => decide (ToolRisk.high.toNat ≤ risk.toNat)
  | .approveWrites => decide (ToolRisk.medium.toNat ≤ risk.toNat)
  | .approveAll => true
  | .dryRun => true

/-! ## src/src-tauri/src/agent/llm.rs : model-family parameter quirks -/

/-- Trailing segment of a model name after the last slash: models
`model.rsplit('/').next().unwrap_or(model)` in llm.rs. -/
def trailingSegment (model : String) : String :=
  String.mk ((splitOnChar '/' model.data).getLastD model.data)

/-- Model of `is_o_series_model` (llm.rs lines 161-167): the trailing
segment starts with the letter o followed by an ASCII digit. -/
def is_o_series_model (model : String) : Bool :=
  match (trailingSegment model).data with
  | c0 :: c1 :: _ => c0 = 'o' && c1.isDigit
  | _ => false

/-- Model of `is_gpt5_model` (llm.rs lines 171-175): the trailing segment
starts with the string gpt-5. -/
def is_gpt5_model (model : String) : Bool :=
  "gpt-5".data.isPrefixOf (trailingSegment model).data

/-- Model of `supports_temperature` (llm.rs lines 179-181). -/
def supports_temperature (model : String) : Bool :=
  !is_o_series_model model && !is_gpt5_model model

/-- Model of `uses_max_completion_tokens` (llm.rs lines 185-187). -/
def uses_max_completion_tokens (model : String) : Bool :=
  is_o_series_model model || is_gpt5_model model

/-- The three request fields of `OpenAiRequest` that depend on the model
family.  The f32 temperature value is carried as an exact rational: the
builders only move it around, no float arithmetic happens. -/
structure OpenAiRequestParams where
  temperature : Option ℚ
  max_tokens : Option Nat
  max_completion_tokens : Option Nat
deriving DecidableEq, Repr

/-- Parameter-selection fragment of `chat_openai` (llm.rs lines 422-441). -/
def chat_openai_params (model : String) (temperature : ℚ) (max_tokens : Nat) :
    OpenAiRequestParams :=
  let mt := if uses_max_completion_tokens model then
              ((none : Option Nat), some max_tokens)
            else (some max_tokens, (none : Option Nat))
  { temperature := if supports_temperature model then some temperature else none
    max_tokens := mt.1
    max_completion_tokens := mt.2 }

/-- Parameter-selection fragment of `chat_openrouter` (llm.rs lines
574-593); the Rust code duplicates the `chat_openai` logic verbatim. -/
def chat_openrouter_params (model : String) (temperature : ℚ) (max_tokens : Nat) :
    OpenAiRequestParams :=
  let mt := if uses_max_completion_tokens model then
              ((none : Option Nat), some max_tokens)
            else (some max_tokens, (none : Option Nat))
  { temperature := if supports_temperature model then some temperature else none
    max_tokens := mt.1
    max_completion_tokens := mt.2 }

/-! ## Byte-level truncation sites (core.rs, tools.rs, session.rs)

Rust `&str[..n]` panics when `n` is not a UTF-8 character boundary.  These
models work on the UTF-8 byte view (`List Nat`); `none` models a panic. -/

/-- UTF-8 bytes of an ASCII marker string. -/
def ascii (s : String) : List Nat := s.data.map Char.toNat

/-- Model of Rust `str::is_char_boundary`: true at 0 and at the total
length; inside the string, true iff the byte is not a continuation byte
(that is, byte < 0x80 or byte >= 0xC0). -/
def is_char_boundary (s : List Nat) (i : Nat) : Bool :=
  if i = 0 then true
  else
    match s[i]? with
    | some b => decide (b < 0x80) || decide (0xC0 ≤ b)
    | none => decide (i = s.length)

/-- Model of the slice expression `&s[..n]`: `none` models the panic raised
when `n` is not a character boundary. -/
def byte_slice_to (s : List Nat) (n : Nat) : Option (List Nat) :=
  if is_char_boundary s n then some (s.take n) else none

/-- Model of `truncate_string` (session.rs lines 406-412), used for audit
result summaries at max length 200. -/
def truncate_string (s : List Nat) (max_len : Nat) : Option (List Nat) :=
  if s.length ≤ max_len then some s
  else (byte_slice_to s max_len).map (fun p => p ++ ascii "...")

/-- Model of the 8000-byte tool-output truncation in the agent loop
(core.rs lines 338-353). -/
def truncate_tool_output (output : List Nat) : Option (List Nat) :=
  if output.length > 8000 then
    (byte_slice_to output 8000).map
      (fun p => p ++ ascii "...\n\n[Output truncated: " ++
        ascii (toString output.length) ++ ascii " bytes total]")
  else some output

/-- Model of the 2000-byte per-line truncation in `read_file` (tools.rs
lines 571-576). -/
def truncate_read_file_line (line : List Nat) : Option (List Nat) :=
  if line.length > 2000 then
    (byte_slice_to line 2000).map (fun p => p ++ ascii "...[truncated]")
  else some line

/-- Model of the 200-byte line truncation in `grep_files` (tools.rs lines
779-783). -/
def truncate_grep_line (line : List Nat) : Option (List Nat) :=
  if line.length > 200 then
    (byte_slice_to line 200).map (fun p => p ++ ascii "...")
  else some line

/-- UTF-8 bytes of the two-byte character U+00E9 (C3 A9). -/
def eAcuteBytes : List Nat := [195, 169]

/-- 1999 ASCII bytes followed by a two-byte character: byte index 2000
falls inside the final character. -/
def badLine2000 : List Nat := List.replicate 1999 97 ++ eAcuteBytes

/-- 199 ASCII bytes followed by a two-byte character: byte index 200 falls
inside the final character. -/
def badLine200 : List Nat := List.replicate 199 97 ++ eAcuteBytes

/-- 7999 ASCII bytes followed by a two-byte character: byte index 8000
falls inside the final character. -/
def badOutput8000 : List Nat := List.replicate 7999 97 ++ eAcuteBytes

/-! ## src/src-tauri/src/agent/tools.rs : the path safety layer

Paths are modelled as lists of Rust `std::path::Component` values; the
filesystem is a record of the three metadata queries `safe_path` makes.
`pathExists` models `Path::exists` (follows symlinks), `isSymlink` models
a successful `fs::symlink_metadata` reporting a symlink (does not follow),
and `canonicalize` models `Path::canonicalize` (`none` is an io error). -/

/-- A Rust path component (Unix flavour; `Prefix` does not occur). -/
inductive PComp where
  | rootDir
  | curDir
  | parentDir
  | normal (s : String)
deriving DecidableEq, Repr

/-- A Rust path, as its component list; absolute paths start with
`rootDir`. -/
structure RPath where
  comps : List PComp
deriving DecidableEq, Repr

/-- Model of `Path::is_absolute` on Unix. -/
def RPath.isAbsolute (p : RPath) : Bool := p.comps.head? = some .rootDir

/-- Model of `PathBuf::push` for a single component: pushing the root
component replaces the path, everything else appends. -/
def RPath.push (p : RPath) (c : PComp) : RPath :=
  match c with
  | .rootDir => ⟨[.rootDir]⟩
  | c => ⟨p.comps ++ [c]⟩

/-- Model of `Path::join`. -/
def RPath.join (base rel : RPath) : RPath :=
  if rel.isAbsolute then rel else ⟨base.comps ++ rel.comps⟩

/-- Model of `Path::starts_with`: component-wise prefix. -/
def RPath.startsWith (p base : RPath) : Bool := base.comps.isPrefixOf p.comps

/-- Model of `Path::strip_prefix` (named to satisfy the identifier rules of
this development). -/
def stripPfx (p base : RPath) : Option RPath :=
  if base.comps.isPrefixOf p.comps then some ⟨p.comps.drop base.comps.length⟩
  else none

/-- Model of `Path::parent`. -/
def RPath.parent (p : RPath) : Option RPath :=
  match p.comps with
  | [] => none
  | [.rootDir] => none
  | _ => some ⟨p.comps.dropLast⟩

/-- Model of `Path::file_name`. -/
def RPath.fileName (p : RPath) : Option String :=
  match p.comps.getLast? with
  | some (.normal s) => some s
  | _ => none

/-- Rendering of one component for display purposes. -/
def PComp.render : PComp → String
  | .rootDir => "/"
  | .curDir => "."
  | .parentDir => ".."
  | .normal s => s

/-- Model of `Path::display` / `to_string_lossy` (Unix flavour). -/
def RPath.display (p : RPath) : String :=
  match p.comps with
  | .rootDir :: rest => "/" ++ String.intercalate "/" (rest.map PComp.render)
  | l => String.intercalate "/" (l.map PComp.render)

/-- Model of `Path::new(s).components()` for a Unix path string: split on
slashes, drop empty segments, map dot segments, and keep a leading dot
segment only for relative paths. -/
def parsePath (s : String) : RPath :=
  let isAbs := startsWithS "/" s
  let segs := ((splitOnChar '/' s.data).filter (fun seg => !seg.isEmpty)).map
    (fun seg =>
      if seg = ['.'] then PComp.curDir
      else if seg = ['.', '.'] then PComp.parentDir
      else PComp.normal (String.mk seg))
  let cleaned :=
    if isAbs then segs.filter (· ≠ PComp.curDir)
    else
      match segs with
      | .curDir :: rest => .curDir :: rest.filter (· ≠ PComp.curDir)
      | l => l.filter (· ≠ PComp.curDir)
  ⟨(if isAbs then [PComp.rootDir] else []) ++ cleaned⟩

/-- The filesystem as seen through the metadata queries used by
`safe_path`. -/
structure FileSystem where
  pathExists : RPath → Bool
  isSymlink : RPath → Bool
  canonicalize : RPath → Option RPath

/-- The per-component loop of `check_no_symlinks_in_path` (tools.rs lines
139-154): walk from the workspace down, failing at the first component
whose non-following metadata reports a symlink. -/
def checkChain (fs : FileSystem) (current : RPath) : List PComp → Except String Unit
  | [] => .ok ()
  | c :: rest =>
    if fs.isSymlink (current.push c) then
      .error ("Symlinks not allowed for security: '" ++ (current.push c).display ++ "'")
    else checkChain fs (current.push c) rest

/-- Model of `check_no_symlinks_in_path` (tools.rs lines 129-167). -/
def check_no_symlinks_in_path (fs : FileSystem) (path workspace : RPath) :
    Except String Unit :=
  match checkChain fs workspace
      (if RPath.startsWith path workspace then ((stripPfx path workspace).getD path).comps
       else path.comps) with
  | .error e => .error e
  | .ok _ =>
    if fs.isSymlink path then
      .error ("Symlinks not allowed for security: '" ++ path.display ++ "'")
    else .ok ()

/-- The sensitive file-name patterns (tools.rs lines 23-71). -/
def SENSITIVE_FILE_PATTERNS : List String :=
  [".env", ".env.local", ".env.development", ".env.production", ".env.test",
   ".envrc", "credentials", "credentials.json", ".credentials", "secrets",
   "secrets.json", ".secrets", "id_rsa", "id_rsa.pub", "id_dsa",
   "id_dsa.pub", "id_ecdsa", "id_ecdsa.pub", "id_ed25519", "id_ed25519.pub",
   "authorized_keys", "known_hosts", "private.pem", "private.key",
   "server.key", "client.key", ".git-credentials", ".gitconfig", ".npmrc",
   ".docker/config.json", ".aws/credentials", ".azure/credentials",
   ".gcloud/credentials", ".password-store", ".gnupg", "keychain.db",
   "keychain-db.sqlite"]

/-- The sensitive file extensions (tools.rs lines 74-81). -/
def SENSITIVE_EXTENSIONS : List String :=
  [".pem", ".key", ".p12", ".pfx", ".keystore", ".jks"]

/-- Model of `is_sensitive_path` (tools.rs lines 84-124). -/
def is_sensitive_path (path : RPath) : Option String :=
  let file_name := (path.fileName).getD ""
  let file_name_lower := toLowerS file_name
  match SENSITIVE_FILE_PATTERNS.find?
      (fun pat => file_name_lower = pat ||
        startsWithS (pat ++ ".") file_name_lower) with
  | some pat =>
    some ("Access denied: '" ++ file_name ++
      "' matches sensitive file pattern '" ++ pat ++ "'")
  | none =>
    match SENSITIVE_EXTENSIONS.find? (fun ext => endsWithS ext file_name_lower) with
    | some ext =>
      some ("Access denied: '" ++ file_name ++ "' has sensitive extension '" ++
        ext ++ "'")
    | none =>
      let path_str := toLowerS path.display
      match ([".ssh", ".gnupg", ".password-store"] : List String).find?
          (fun dir => containsS (dir ++ "/") path_str ||
            containsS (dir ++ "\\") path_str) with
      | some dir =>
        some ("Access denied: path contains sensitive directory '" ++ dir ++ "'")
      | none => none

/-- First block of `safe_path` (tools.rs lines 176-186): empty or dot
resolves to the workspace, absolute requests stand alone, relative requests
are joined to the workspace. -/
def joinedPath (workspace : RPath) (requested : String) : RPath :=
  if requested = "" ∨ requested = "." then workspace
  else
    let p := parsePath requested
    if p.isAbsolute then p else workspace.join p

/-- The workspace-escape error message of `safe_path`. -/
def escapesMsg (requestedP cw : RPath) : String :=
  "Path '" ++ requestedP.display ++ "' escapes workspace '" ++ cw.display ++ "'"

/-- The prefix verification shared by all success exits of `safe_path`
(tools.rs lines 239-247 and 258-267). -/
def finalCheck (cw requestedP cr : RPath) : Except String RPath :=
  if cr.startsWith cw then .ok cr else .error (escapesMsg requestedP cw)

/-- The manual reconstruction loop of `safe_path` for paths whose parent
does not exist yet (tools.rs lines 225-238): normal components are pushed,
parent components are path traversal, root components are absolute, and
anything else is skipped. -/
def reconstructLoop (cw : RPath) : List PComp → RPath → Except String RPath
  | [], current => .ok current
  | c :: rest, current =>
    match c with
    | .normal s => reconstructLoop cw rest (current.push (.normal s))
    | .parentDir => .error "Path traversal detected: '..' not allowed"
    | .rootDir => .error "Absolute paths not allowed"
    | .curDir => reconstructLoop cw rest current

/-- Model of `safe_path` (tools.rs lines 174-268). -/
def safe_path (fs : FileSystem) (workspace : RPath) (requested : String) :
    Except String RPath :=
  match fs.canonicalize workspace with
  | none => .error "Failed to canonicalize workspace"
  | some canonical_workspace =>
    match (if fs.pathExists (joinedPath workspace requested) then
        check_no_symlinks_in_path fs (joinedPath workspace requested)
          canonical_workspace
      else .ok ()) with
    | .error e => .error e
    | .ok _ =>
      match is_sensitive_path (joinedPath workspace requested) with
      | some err => .error err
      | none =>
        if fs.pathExists (joinedPath workspace requested) then
          match fs.canonicalize (joinedPath workspace requested) with
          | none => .error "Failed to canonicalize path"
          | some cr => finalCheck canonical_workspace (joinedPath workspace requested) cr
        else
          if fs.pathExists
              (((joinedPath workspace requested).parent).getD canonical_workspace) then
            match fs.canonicalize
                (((joinedPath workspace requested).parent).getD canonical_workspace) with
            | none => .error "Failed to canonicalize parent"
            | some cp =>
              finalCheck canonical_workspace (joinedPath workspace requested)
                (match (joinedPath workspace requested).fileName with
                 | some f => RPath.mk (cp.comps ++ [PComp.normal f])
                 | none => cp)
          else
            match reconstructLoop canonical_workspace
                (((stripPfx (joinedPath workspace requested) workspace).orElse
                  (fun _ => stripPfx (joinedPath workspace requested)
                    canonical_workspace)).getD
                  (joinedPath workspace requested)).comps
                canonical_workspace with
            | .error e => .error e
            | .ok current =>
              finalCheck canonical_workspace (joinedPath workspace requested) current

/-- The list of paths whose metadata the symlink-check loop queries. -/
def chainPaths (current : RPath) : List PComp → List RPath
  | [] => []
  | c :: rest => (current.push c) :: chainPaths (current.push c) rest

/-- True when some component of the chain from the workspace to the target
(or the target itself) is a symlink: exactly the set of paths queried by
`check_no_symlinks_in_path`. -/
def symlinkHit (fs : FileSystem) (cw path : RPath) : Bool :=
  (chainPaths cw
      (if RPath.startsWith path cw then ((stripPfx path cw).getD path).comps
       else path.comps)).any fs.isSymlink || fs.isSymlink path

/-! ## Theorems for C8, C9, C10 -/

/-- C8: needs_approval is a pure function of approval mode and risk (it is a
Lean function of exactly those two arguments), and for every fixed
ApprovalMode it is monotone in risk under the derived order
Low < Medium < High. -/
theorem c8_needs_approval_monotone (m : ApprovalMode) (r1 r2 : ToolRisk)
    (hle : r1.toNat ≤ r2.toNat) (h : m.needs_approval r1 = true) :
    m.needs_approval r2 = true := by
  revert hle h
  cases m <;> cases r1 <;> cases r2 <;> decide

/-- Witness for C8 at a concrete input: ApproveWrites requires approval at
Medium, hence also at High. -/
theorem c8_witness :
    ApprovalMode.approveWrites.needs_approval .high = true :=
  c8_needs_approval_monotone .approveWrites .medium .high (by decide) (by decide)

/-- C9: for every model name, both the OpenAI and the OpenRouter request
builders inspect the trailing segment after any slash; if it starts with
the letter o followed by an ASCII digit or starts with gpt-5, the request
carries no temperature and uses max_completion_tokens instead of
max_tokens; otherwise the request carries temperature and max_tokens. -/
theorem c9_model_param_quirks (model : String) (temp : ℚ) (mt : Nat) :
    if is_o_series_model model || is_gpt5_model model then
      chat_openai_params model temp mt =
          ⟨none, none, some mt⟩ ∧
        chat_openrouter_params model temp mt = ⟨none, none, some mt⟩
    else
      chat_openai_params model temp mt =
          ⟨some temp, some mt, none⟩ ∧
        chat_openrouter_params model temp mt = ⟨some temp, some mt, none⟩ := by
  unfold chat_openai_params chat_openrouter_params supports_temperature
    uses_max_completion_tokens
  cases ho : is_o_series_model model <;> cases hg : is_gpt5_model model <;>
    simp [ho, hg]

/-- Slicing a string of n ASCII bytes followed by a two-byte character at
byte index n+1 lands on the continuation byte and panics. -/
theorem byte_slice_mid_char (n : Nat) :
    byte_slice_to (List.replicate n 97 ++ eAcuteBytes) (n + 1) = none := by
  have hget : (List.replicate n (97 : Nat) ++ eAcuteBytes)[n + 1]? = some 169 := by
    rw [List.getElem?_append_right (by simp)]
    have hidx : n + 1 - (List.replicate n (97 : Nat)).length = 1 := by
      simp
    rw [hidx]
    rfl
  have hb : is_char_boundary (List.replicate n 97 ++ eAcuteBytes) (n + 1) = false := by
    unfold is_char_boundary
    rw [if_neg (Nat.succ_ne_zero n), hget]
    rfl
  unfold byte_slice_to
  rw [hb]
  simp

/-- C10 (code bug): the truncation sites are not total.  Each of the four
models panics (returns none) on an input whose cut-off byte index falls
inside a multi-byte UTF-8 character, because Rust byte slicing panics off a
character boundary. -/
theorem c10_truncation_panics :
    truncate_tool_output badOutput8000 = none ∧
      truncate_read_file_line badLine2000 = none ∧
      truncate_grep_line badLine200 = none ∧
      truncate_string badLine200 200 = none := by
  refine ⟨?_, ?_, ?_, ?_⟩
  · unfold truncate_tool_output badOutput8000
    rw [if_pos (by rw [List.length_append, List.length_replicate]; norm_num [eAcuteBytes])]
    rw [show (8000 : Nat) = 7999 + 1 from rfl, byte_slice_mid_char 7999]
    rfl
  · unfold truncate_read_file_line badLine2000
    rw [if_pos (by rw [List.length_append, List.length_replicate]; norm_num [eAcuteBytes])]
    rw [show (2000 : Nat) = 1999 + 1 from rfl, byte_slice_mid_char 1999]
    rfl
  · unfold truncate_grep_line badLine200
    rw [if_pos (by rw [List.length_append, List.length_replicate]; norm_num [eAcuteBytes])]
    rw [show (200 : Nat) = 199 + 1 from rfl, byte_slice_mid_char 199]
    rfl
  · unfold truncate_string badLine200
    rw [if_neg (by rw [List.length_append, List.length_replicate]; norm_num [eAcuteBytes])]
    rw [show (200 : Nat) = 199 + 1 from rfl, byte_slice_mid_char 199]
    rfl




/-! ## Theorems for C1 and C2 -/

/-- A string is a prefix of itself followed by anything. -/
theorem startsWithS_self_append (p r : String) : startsWithS p (p ++ r) = true := by
  unfold startsWithS
  rw [String.data_append]
  exact (List.isPrefixOf_iff_prefix).mpr (List.prefix_append _ _)

/-- The symlink error message always starts with the phrase the spec
names. -/
theorem symlink_msg_pre (d : String) :
    startsWithS "Symlinks not allowed"
      ("Symlinks not allowed for security: '" ++ d ++ "'") = true := by
  rw [show ("Symlinks not allowed for security: '" : String) =
    "Symlinks not allowed" ++ " for security: '" from rfl]
  rw [String.append_assoc, String.append_assoc]
  exact startsWithS_self_append _ _

/-- If no queried path in the chain is a symlink, the chain check
succeeds. -/
theorem checkChain_ok (fs : FileSystem) (comps : List PComp) (cur : RPath)
    (h : (chainPaths cur comps).any fs.isSymlink = false) :
    checkChain fs cur comps = .ok () := by
  induction comps generalizing cur with
  | nil => rfl
  | cons c rest ih =>
    unfold chainPaths at h
    simp only [List.any_cons, Bool.or_eq_false_iff] at h
    unfold checkChain
    simp only [h.1, Bool.false_eq_true, if_false]
    exact ih _ h.2

/-- If some queried path in the chain is a symlink, the chain check fails
with a message starting with the phrase the spec names. -/
theorem checkChain_err (fs : FileSystem) (comps : List PComp) (cur : RPath)
    (h : (chainPaths cur comps).any fs.isSymlink = true) :
    ∃ e, checkChain fs cur comps = .error e ∧
      startsWithS "Symlinks not allowed" e = true := by
  induction comps generalizing cur with
  | nil => simp [chainPaths] at h
  | cons c rest ih =>
    by_cases hs : fs.isSymlink (cur.push c) = true
    · refine ⟨"Symlinks not allowed for security: '" ++ (cur.push c).display ++ "'",
        ?_, symlink_msg_pre _⟩
      unfold checkChain
      simp only [hs, if_true]
    · unfold chainPaths at h
      simp only [List.any_cons, Bool.or_eq_true] at h
      rcases h with h | h
      · exact absurd h hs
      · obtain ⟨e, he, hp⟩ := ih (cur.push c) h
        refine ⟨e, ?_, hp⟩
        unfold checkChain
        rw [Bool.not_eq_true] at hs
        simp only [hs, Bool.false_eq_true, if_false]
        exact he

/-- If the chain from the workspace to the target or the target itself is
a symlink, check_no_symlinks_in_path fails with the spec message. -/
theorem check_no_symlinks_err (fs : FileSystem) (path cw : RPath)
    (h : symlinkHit fs cw path = true) :
    ∃ e, check_no_symlinks_in_path fs path cw = .error e ∧
      startsWithS "Symlinks not allowed" e = true := by
  unfold symlinkHit at h
  simp only [Bool.or_eq_true] at h
  unfold check_no_symlinks_in_path
  cases hany : (chainPaths cw
      (if RPath.startsWith path cw then ((stripPfx path cw).getD path).comps
       else path.comps)).any fs.isSymlink with
  | true =>
    obtain ⟨e, he, hp⟩ := checkChain_err fs _ cw hany
    refine ⟨e, ?_, hp⟩
    rw [he]
  | false =>
    rw [hany] at h
    rcases h with h | h
    · cases h
    · rw [checkChain_ok fs _ cw hany, h]
      exact ⟨_, rfl, symlink_msg_pre _⟩

/-- C1 (amended): if the requested path joined to the workspace exists
according to the symlink-following existence check, and any component of
the chain from the workspace to the target (or the target itself) is a
symlink, then safe_path fails with an error starting with
"Symlinks not allowed". -/
theorem c1_symlink_guard (fs : FileSystem) (w : RPath) (req : String)
    (cw : RPath) (hcw : fs.canonicalize w = some cw)
    (hex : fs.pathExists (joinedPath w req) = true)
    (hhit : symlinkHit fs cw (joinedPath w req) = true) :
    ∃ e, safe_path fs w req = .error e ∧
      startsWithS "Symlinks not allowed" e = true := by
  obtain ⟨e, he, hp⟩ := check_no_symlinks_err fs (joinedPath w req) cw hhit
  refine ⟨e, ?_, hp⟩
  unfold safe_path
  simp only [hcw, hex, eq_self_iff_true, if_true, he]

/-- Workspace root used by the concrete filesystem counterexamples. -/
def wPath : RPath := ⟨[.rootDir, .normal "w"]⟩

/-- The path of the symlink named evil inside the workspace. -/
def evilPath : RPath := ⟨[.rootDir, .normal "w", .normal "evil"]⟩

/-- The filesystem root path. -/
def rootPath : RPath := ⟨[.rootDir]⟩

/-- A filesystem holding the workspace /w and a dangling symlink
/w/evil: the symlink-following existence check reports false for it. -/
def fsDangling : FileSystem :=
  { pathExists := fun p => p = rootPath || p = wPath
    isSymlink := fun p => p = evilPath
    canonicalize := fun p => if p = rootPath ∨ p = wPath then some p else none }

/-- A filesystem holding the workspace /w and a symlink /w/evil whose
target exists, so the symlink-following existence check reports true. -/
def fsLive : FileSystem :=
  { pathExists := fun p => p = rootPath || p = wPath || p = evilPath
    isSymlink := fun p => p = evilPath
    canonicalize := fun p => if p = rootPath ∨ p = wPath then some p else none }

/-- C1 counterexample: on the dangling-symlink filesystem, safe_path
accepts the request and returns a path whose final component is a symlink,
so the unconditional claim is false. -/
theorem c1_counterexample :
    safe_path fsDangling wPath "evil" = .ok evilPath ∧
      fsDangling.isSymlink evilPath = true := ⟨rfl, rfl⟩

/-- Witness for C1 (amended) at a concrete input: with an existing symlink
target the guard fires. -/
theorem c1_witness :
    ∃ e, safe_path fsLive wPath "evil" = .error e ∧
      startsWithS "Symlinks not allowed" e = true :=
  c1_symlink_guard fsLive wPath "evil" wPath rfl rfl rfl

/-- A successful finalCheck yields a path that starts with the canonical
workspace. -/
theorem finalCheck_ok (cw req cr p : RPath) (h : finalCheck cw req cr = .ok p) :
    RPath.startsWith p cw = true := by
  unfold finalCheck at h
  by_cases hs : RPath.startsWith cr cw = true
  · rw [if_pos hs] at h
    cases h
    exact hs
  · rw [if_neg hs] at h
    cases h

/-- C2: safe_path either fails or returns a path that has the
canonicalized workspace as a component-wise prefix; every success branch
passes the prefix verification. -/
theorem c2_escape_guard (fs : FileSystem) (w : RPath) (req : String)
    (p : RPath) (h : safe_path fs w req = .ok p) :
    ∃ cw, fs.canonicalize w = some cw ∧ RPath.startsWith p cw = true := by
  unfold safe_path at h
  repeat' (split at h)
  all_goals try (exact absurd h (by simp))
  all_goals exact ⟨_, by assumption, finalCheck_ok _ _ _ _ h⟩

/-- Witness for C2 at a concrete input: the dangling-symlink run returns a
path below the canonical workspace. -/
theorem c2_witness :
    ∃ cw, fsDangling.canonicalize wPath = some cw ∧
      RPath.startsWith evilPath cw = true :=
  c2_escape_guard fsDangling wPath "evil" evilPath rfl

/-! ## src/src-tauri/src/agent/session.rs : the bounded session store

Only the fields that influence the retention bounds are modelled
(creation time and status); ids are the map keys.  Times are abstract
naturals.  An audit entry is reduced to its session id. -/

/-- Status of an agent session (`SessionStatus`). -/
inductive SessionStatus where
  | active
  | paused
  | completed
  | failed
  | cancelled
deriving DecidableEq, Repr

/-- The bound-relevant part of a `Session`. -/
structure Session where
  created_at : Nat
  status : SessionStatus
deriving DecidableEq, Repr

/-- The bound-relevant part of an `AuditEntry`. -/
structure AuditEntry where
  session_id : String
deriving DecidableEq, Repr

/-- The in-memory `SessionStore`: a session map (as an association list)
and the ordered audit log. -/
structure SessionStore where
  sessions : List (String × Session)
  audit_log : List AuditEntry
deriving Repr

/-- `max_sessions` set in `SessionStore::new` (session.rs line 248). -/
def maxSessions : Nat := 100

/-- `max_audit_entries` set in `SessionStore::new` (session.rs line 249). -/
def maxAuditEntries : Nat := 1000

/-- `SessionStore::new`. -/
def emptyStore : SessionStore := ⟨[], []⟩

/-- Model of `HashMap::insert`: replace the value under an existing key,
append otherwise. -/
def insertSession (m : List (String × Session)) (id : String) (s : Session) :
    List (String × Session) :=
  if m.any (fun p => decide (p.1 = id)) then
    m.map (fun p => if p.1 = id then (id, s) else p)
  else m ++ [(id, s)]

/-- Model of `HashMap::remove` for one key. -/
def removeId (m : List (String × Session)) (id : String) :
    List (String × Session) :=
  m.filter (fun q => !decide (q.1 = id))

/-- Insertion step of the sort used to order evictable sessions by
creation time. -/
def insertByCreated (x : String × Session) :
    List (String × Session) → List (String × Session)
  | [] => [x]
  | y :: ys =>
    if x.2.created_at ≤ y.2.created_at then x :: y :: ys
    else y :: insertByCreated x ys

/-- Model of `completed.sort_by_key(created_at)` (session.rs line 278). -/
def sortByCreated : List (String × Session) → List (String × Session)
  | [] => []
  | x :: xs => insertByCreated x (sortByCreated xs)

/-- Model of `SessionStore::log_entry` (session.rs lines 323-333): push,
then drain the oldest entries past the bound. -/
def log_entry (st : SessionStore) (e : AuditEntry) : SessionStore :=
  if (st.audit_log ++ [e]).length > maxAuditEntries then
    { st with audit_log :=
        (st.audit_log ++ [e]).drop ((st.audit_log ++ [e]).length - maxAuditEntries) }
  else { st with audit_log := st.audit_log ++ [e] }

/-- Model of `SessionStore::create_session` (session.rs lines 254-290):
insert an Active session; if the map exceeds the bound, remove the oldest
non-Active sessions; then log a session-start audit entry. -/
def create_session (st : SessionStore) (id : String) (created_at : Nat) :
    SessionStore :=
  let sessions1 := insertSession st.sessions id ⟨created_at, .active⟩
  let sessions2 :=
    if sessions1.length > maxSessions then
      ((sortByCreated (sessions1.filter
          (fun p => decide (p.2.status ≠ .active)))).take
        (sessions1.length - maxSessions)).foldl
        (fun m p => removeId m p.1) sessions1
    else sessions1
  log_entry { st with sessions := sessions2 } ⟨id⟩

/-- Model of `SessionStore::update_session` (session.rs lines 298-307): an
arbitrary in-place mutation of the stored session under one key. -/
def update_session (st : SessionStore) (id : String) (f : Session → Session) :
    SessionStore :=
  { st with sessions := st.sessions.map (fun p => if p.1 = id then (p.1, f p.2) else p) }

/-- The session-store operations named by the claim. -/
inductive StoreOp where
  | create (id : String) (created_at : Nat)
  | logEv (e : AuditEntry)
  | update (id : String) (f : Session → Session)

/-- Apply one store operation. -/
def applyOp (st : SessionStore) : StoreOp → SessionStore
  | .create id t => create_session st id t
  | .logEv e => log_entry st e
  | .update id f => update_session st id f

/-- Apply a sequence of store operations. -/
def applyOps (ops : List StoreOp) (st : SessionStore) : SessionStore :=
  ops.foldl applyOp st

/-- Number of Active sessions in the store. -/
def activeCount (st : SessionStore) : Nat :=
  (st.sessions.filter (fun p => decide (p.2.status = .active))).length

/-- The session map has no duplicate keys. -/
def keysNodup (st : SessionStore) : Prop := (st.sessions.map Prod.fst).Nodup

/-! ## Lemmas and theorems for C7 -/

/-- log_entry never touches the session map. -/
theorem log_entry_sessions (st : SessionStore) (e : AuditEntry) :
    (log_entry st e).sessions = st.sessions := by
  unfold log_entry
  split <;> rfl

/-- After any log_entry the audit log is within the bound, regardless of
the incoming state. -/
theorem log_entry_audit (st : SessionStore) (e : AuditEntry) :
    (log_entry st e).audit_log.length ≤ maxAuditEntries := by
  unfold log_entry
  by_cases h : (st.audit_log ++ [e]).length > maxAuditEntries
  · rw [if_pos h]
    simp only [List.length_drop]
    omega
  · rw [if_neg h]
    show (st.audit_log ++ [e]).length ≤ maxAuditEntries
    omega

/-- Insertion keeps every element and adds the new one. -/
theorem perm_insertByCreated (x : String × Session) (l : List (String × Session)) :
    (insertByCreated x l).Perm (x :: l) := by
  induction l with
  | nil => exact List.Perm.refl _
  | cons y ys ih =>
    unfold insertByCreated
    by_cases h : x.2.created_at ≤ y.2.created_at
    · rw [if_pos h]
    · rw [if_neg h]
      exact (ih.cons y).trans (List.Perm.swap x y ys)

/-- The eviction sort is a permutation. -/
theorem perm_sortByCreated (l : List (String × Session)) :
    (sortByCreated l).Perm l := by
  induction l with
  | nil => exact List.Perm.refl _
  | cons x xs ih =>
    exact (perm_insertByCreated x (sortByCreated xs)).trans (ih.cons x)

/-- Updating a session does not change the key list. -/
theorem keys_update (st : SessionStore) (id : String) (f : Session → Session) :
    (update_session st id f).sessions.map Prod.fst = st.sessions.map Prod.fst := by
  unfold update_session
  simp only [List.map_map]
  apply List.map_congr_left
  intro p _
  by_cases h : p.1 = id <;> simp [h]

/-- Inserting preserves key distinctness. -/
theorem keys_insertSession (m : List (String × Session)) (id : String)
    (s : Session) (hnd : (m.map Prod.fst).Nodup) :
    ((insertSession m id s).map Prod.fst).Nodup := by
  unfold insertSession
  by_cases h : m.any (fun p => decide (p.1 = id)) = true
  · rw [if_pos h]
    have hkeys : (m.map (fun p => if p.1 = id then (id, s) else p)).map Prod.fst
        = m.map Prod.fst := by
      simp only [List.map_map]
      apply List.map_congr_left
      intro p _
      by_cases hp : p.1 = id <;> simp [hp]
    rw [hkeys]
    exact hnd
  · rw [if_neg h]
    have hnot : id ∉ m.map Prod.fst := by
      intro hmem
      obtain ⟨p, hp, hpe⟩ := List.mem_map.mp hmem
      exact h (List.any_eq_true.mpr ⟨p, hp, by simp [hpe]⟩)
    rw [List.map_append]
    simp only [List.map_cons, List.map_nil]
    rw [List.nodup_append]
    exact ⟨hnd, List.nodup_singleton id, by simpa using hnot⟩

/-- Folding removals equals filtering out all removed keys. -/
theorem foldl_removeId_eq (ids : List (String × Session))
    (m : List (String × Session)) :
    ids.foldl (fun acc p => removeId acc p.1) m
      = m.filter (fun q => !decide (q.1 ∈ ids.map Prod.fst)) := by
  induction ids generalizing m with
  | nil => simp
  | cons p rest ih =>
    show rest.foldl _ (removeId m p.1) = _
    rw [ih]
    unfold removeId
    rw [List.filter_filter]
    apply List.filter_congr
    intro a _
    simp only [List.map_cons, List.mem_cons]
    by_cases h1 : a.1 = p.1 <;> by_cases h2 : a.1 ∈ rest.map Prod.fst <;>
      simp [h1, h2]

/-- Removing one present key from a duplicate-free map drops the length by
exactly one. -/
theorem length_filter_ne_of_mem (m : List (String × Session)) (i : String)
    (hnd : (m.map Prod.fst).Nodup) (hmem : i ∈ m.map Prod.fst) :
    (m.filter (fun q => !decide (q.1 = i))).length = m.length - 1 := by
  induction m with
  | nil => simp at hmem
  | cons p rest ih =>
    simp only [List.map_cons, List.nodup_cons] at hnd
    simp only [List.map_cons, List.mem_cons] at hmem
    rw [List.filter_cons]
    rcases hmem with hmem | hmem
    · subst hmem
      have hrest : rest.filter (fun q => !decide (q.1 = p.1)) = rest :=
        List.filter_eq_self.mpr (fun q hq => by
          have hm : q.1 ∈ rest.map Prod.fst := List.mem_map.mpr ⟨q, hq, rfl⟩
          have hne : q.1 ≠ p.1 := fun hc => hnd.1 (hc ▸ hm)
          simp [hne])
      simp [hrest]
    · have hne : p.1 ≠ i := fun hc => hnd.1 (hc ▸ hmem)
      have h1 : 1 ≤ rest.length := by
        cases rest with
        | nil => simp at hmem
        | cons a b => simp
      have h2 := ih hnd.2 hmem
      rw [if_pos (by simp [hne])]
      simp only [List.length_cons, h2]
      omega

/-- A key different from the removed one survives removal. -/
theorem mem_keys_removeId (m : List (String × Session)) (i a : String)
    (hmem : a ∈ m.map Prod.fst) (hne : a ≠ i) :
    a ∈ (removeId m i).map Prod.fst := by
  obtain ⟨p, hp, hpe⟩ := List.mem_map.mp hmem
  refine List.mem_map.mpr ⟨p, ?_, hpe⟩
  unfold removeId
  refine List.mem_filter.mpr ⟨hp, ?_⟩
  simp [hpe, hne]

/-- Removal keeps keys duplicate-free. -/
theorem nodup_keys_removeId (m : List (String × Session)) (i : String)
    (hnd : (m.map Prod.fst).Nodup) :
    ((removeId m i).map Prod.fst).Nodup := by
  exact ((List.filter_sublist m).map Prod.fst).nodup hnd

/-- Folding removals of distinct present keys drops the length by the
number of removed keys. -/
theorem length_foldl_remove (ids m : List (String × Session))
    (hndm : (m.map Prod.fst).Nodup) (hndids : (ids.map Prod.fst).Nodup)
    (hsub : ∀ p ∈ ids, p.1 ∈ m.map Prod.fst) :
    (ids.foldl (fun acc p => removeId acc p.1) m).length
      = m.length - ids.length := by
  induction ids generalizing m with
  | nil => simp
  | cons p rest ih =>
    show (rest.foldl _ (removeId m p.1)).length = _
    simp only [List.map_cons, List.nodup_cons] at hndids
    have hp1 : p.1 ∈ m.map Prod.fst := hsub p (by simp)
    have h1 : (removeId m p.1).length = m.length - 1 :=
      length_filter_ne_of_mem m p.1 hndm hp1
    have h2 := ih (removeId m p.1) (nodup_keys_removeId m p.1 hndm) hndids.2
      (by
        intro q hq
        have hqm : q.1 ∈ m.map Prod.fst := hsub q (by simp [hq])
        have hqne : q.1 ≠ p.1 := by
          intro hcontra
          exact hndids.1 (hcontra ▸ List.mem_map.mpr ⟨q, hq, rfl⟩)
        exact mem_keys_removeId m p.1 q.1 hqm hqne)
    rw [h2, h1]
    have : 1 ≤ m.length := by
      cases m with
      | nil => simp at hp1
      | cons a b => simp
    simp only [List.length_cons]
    omega

/-- The session map produced by create_session, extracted from under the
trailing audit append. -/
theorem create_session_sessions (st : SessionStore) (id : String) (t : Nat) :
    (create_session st id t).sessions =
      if (insertSession st.sessions id ⟨t, .active⟩).length > maxSessions then
        ((sortByCreated ((insertSession st.sessions id ⟨t, .active⟩).filter
            (fun p => decide (p.2.status ≠ .active)))).take
          ((insertSession st.sessions id ⟨t, .active⟩).length - maxSessions)).foldl
          (fun m p => removeId m p.1) (insertSession st.sessions id ⟨t, .active⟩)
      else insertSession st.sessions id ⟨t, .active⟩ := by
  unfold create_session
  rw [log_entry_sessions]

/-- create_session ends in log_entry, so its audit log is bounded. -/
theorem create_session_audit (st : SessionStore) (id : String) (t : Nat) :
    (create_session st id t).audit_log.length ≤ maxAuditEntries := by
  unfold create_session
  exact log_entry_audit _ _

/-- create_session keeps the keys duplicate-free. -/
theorem create_session_nodup (st : SessionStore) (id : String) (t : Nat)
    (h : keysNodup st) : keysNodup (create_session st id t) := by
  unfold keysNodup
  rw [create_session_sessions]
  by_cases hover : (insertSession st.sessions id ⟨t, .active⟩).length > maxSessions
  · rw [if_pos hover, foldl_removeId_eq]
    exact ((List.filter_sublist _).map Prod.fst).nodup (keys_insertSession _ _ _ h)
  · rw [if_neg hover]
    exact keys_insertSession _ _ _ h

/-- Each store operation keeps the keys duplicate-free. -/
theorem applyOp_nodup (st : SessionStore) (op : StoreOp) (h : keysNodup st) :
    keysNodup (applyOp st op) := by
  cases op with
  | create id t => exact create_session_nodup st id t h
  | logEv e =>
    unfold keysNodup
    rw [show (applyOp st (.logEv e)).sessions = st.sessions from log_entry_sessions st e]
    exact h
  | update id f =>
    unfold keysNodup
    rw [show (applyOp st (.update id f)).sessions = (update_session st id f).sessions from rfl,
      keys_update]
    exact h

/-- Key distinctness holds along any operation sequence. -/
theorem applyOps_nodup (ops : List StoreOp) (st : SessionStore)
    (h : keysNodup st) : keysNodup (applyOps ops st) := by
  induction ops generalizing st with
  | nil => exact h
  | cons op rest ih => exact ih (applyOp st op) (applyOp_nodup st op h)

/-- The audit bound holds along any operation sequence. -/
theorem applyOps_audit (ops : List StoreOp) (st : SessionStore)
    (h : st.audit_log.length ≤ maxAuditEntries) :
    (applyOps ops st).audit_log.length ≤ maxAuditEntries := by
  induction ops generalizing st with
  | nil => exact h
  | cons op rest ih =>
    refine ih (applyOp st op) ?_
    cases op with
    | create id t => exact create_session_audit st id t
    | logEv e => exact log_entry_audit st e
    | update id f => exact h

/-- After create_session the session count is at most the larger of the
bound and the number of Active sessions: eviction only removes non-Active
sessions. -/
theorem create_session_len (st : SessionStore) (id : String) (t : Nat)
    (hnd : keysNodup st) :
    (create_session st id t).sessions.length
      ≤ max maxSessions (activeCount (create_session st id t)) := by
  have hm1 : ((insertSession st.sessions id ⟨t, .active⟩).map Prod.fst).Nodup :=
    keys_insertSession _ _ _ hnd
  by_cases hover : (insertSession st.sessions id ⟨t, .active⟩).length > maxSessions
  · have hperm : (sortByCreated ((insertSession st.sessions id ⟨t, .active⟩).filter
        (fun p => decide (p.2.status ≠ .active)))).Perm
        ((insertSession st.sessions id ⟨t, .active⟩).filter
          (fun p => decide (p.2.status ≠ .active))) := perm_sortByCreated _
    by_cases hall : (sortByCreated ((insertSession st.sessions id ⟨t, .active⟩).filter
        (fun p => decide (p.2.status ≠ .active)))).length
        ≤ (insertSession st.sessions id ⟨t, .active⟩).length - maxSessions
    · have hrl : (sortByCreated ((insertSession st.sessions id ⟨t, .active⟩).filter
          (fun p => decide (p.2.status ≠ .active)))).take
          ((insertSession st.sessions id ⟨t, .active⟩).length - maxSessions)
          = sortByCreated ((insertSession st.sessions id ⟨t, .active⟩).filter
            (fun p => decide (p.2.status ≠ .active))) :=
        List.take_of_length_le hall
      have hfinal : (create_session st id t).sessions
          = (insertSession st.sessions id ⟨t, .active⟩).filter
            (fun q => !decide (q.1 ∈
              ((sortByCreated ((insertSession st.sessions id ⟨t, .active⟩).filter
                (fun p => decide (p.2.status ≠ .active)))).take
                ((insertSession st.sessions id ⟨t, .active⟩).length - maxSessions)).map
                Prod.fst)) := by
        rw [create_session_sessions, if_pos hover, foldl_removeId_eq]
      have hact : ∀ q ∈ (create_session st id t).sessions,
          q.2.status = SessionStatus.active := by
        intro q hq
        rw [hfinal] at hq
        have hqm := (List.mem_filter.mp hq).1
        have hqp := (List.mem_filter.mp hq).2
        by_contra hne
        have hqna : q ∈ (insertSession st.sessions id ⟨t, .active⟩).filter
            (fun p => decide (p.2.status ≠ .active)) :=
          List.mem_filter.mpr ⟨hqm, by simp [hne]⟩
        have hqs := hperm.mem_iff.mpr hqna
        have hin : q.1 ∈ ((sortByCreated ((insertSession st.sessions id
            ⟨t, .active⟩).filter (fun p => decide (p.2.status ≠ .active)))).take
            ((insertSession st.sessions id ⟨t, .active⟩).length - maxSessions)).map
            Prod.fst := by
          rw [hrl]
          exact List.mem_map.mpr ⟨q, hqs, rfl⟩
        rw [decide_eq_true hin] at hqp
        simp at hqp
      have h2 : activeCount (create_session st id t)
          = (create_session st id t).sessions.length := by
        unfold activeCount
        rw [List.filter_eq_self.mpr (fun q hq => by simp [hact q hq])]
      have h3 := Nat.le_max_right maxSessions (activeCount (create_session st id t))
      omega
    · have hrlLen : ((sortByCreated ((insertSession st.sessions id ⟨t, .active⟩).filter
          (fun p => decide (p.2.status ≠ .active)))).take
          ((insertSession st.sessions id ⟨t, .active⟩).length - maxSessions)).length
          = (insertSession st.sessions id ⟨t, .active⟩).length - maxSessions := by
        rw [List.length_take]
        omega
      have hnaKeys : (((insertSession st.sessions id ⟨t, .active⟩).filter
          (fun p => decide (p.2.status ≠ .active))).map Prod.fst).Nodup :=
        ((List.filter_sublist _).map Prod.fst).nodup hm1
      have hsortedKeys : ((sortByCreated ((insertSession st.sessions id
          ⟨t, .active⟩).filter (fun p => decide (p.2.status ≠ .active)))).map
          Prod.fst).Nodup := ((hperm.map Prod.fst).nodup_iff).mpr hnaKeys
      have hrlKeys : (((sortByCreated ((insertSession st.sessions id
          ⟨t, .active⟩).filter (fun p => decide (p.2.status ≠ .active)))).take
          ((insertSession st.sessions id ⟨t, .active⟩).length - maxSessions)).map
          Prod.fst).Nodup :=
        ((List.take_sublist _ _).map Prod.fst).nodup hsortedKeys
      have hsub : ∀ p ∈ (sortByCreated ((insertSession st.sessions id
          ⟨t, .active⟩).filter (fun p => decide (p.2.status ≠ .active)))).take
          ((insertSession st.sessions id ⟨t, .active⟩).length - maxSessions),
          p.1 ∈ (insertSession st.sessions id ⟨t, .active⟩).map Prod.fst := by
        intro p hp
        have hps := (List.take_sublist _ _).subset hp
        have hpna := hperm.mem_iff.mp hps
        have hpm := (List.filter_sublist _).subset hpna
        exact List.mem_map.mpr ⟨p, hpm, rfl⟩
      have hcount := length_foldl_remove _ _ hm1 hrlKeys hsub
      have hfinal0 : (create_session st id t).sessions
          = ((sortByCreated ((insertSession st.sessions id ⟨t, .active⟩).filter
            (fun p => decide (p.2.status ≠ .active)))).take
            ((insertSession st.sessions id ⟨t, .active⟩).length - maxSessions)).foldl
            (fun m p => removeId m p.1) (insertSession st.sessions id ⟨t, .active⟩) := by
        rw [create_session_sessions, if_pos hover]
      have h3 := Nat.le_max_left maxSessions (activeCount (create_session st id t))
      rw [hfinal0, hcount, hrlLen]
      omega
  · have hfinal : (create_session st id t).sessions
        = insertSession st.sessions id ⟨t, .active⟩ := by
      rw [create_session_sessions, if_neg hover]
    have h3 := Nat.le_max_left maxSessions (activeCount (create_session st id t))
    rw [hfinal]
    omega

/-- C7 (amended): along every operation sequence from the fresh store the
audit log stays within 1000 entries, and after any create_session the
session count is at most the larger of 100 and the number of Active
sessions; the 100 bound alone can be exceeded because eviction skips
Active sessions. -/
theorem c7_store_bounds (ops : List StoreOp) (id : String) (t : Nat) :
    (applyOps ops emptyStore).audit_log.length ≤ maxAuditEntries ∧
      (applyOps (ops ++ [StoreOp.create id t]) emptyStore).sessions.length
        ≤ max maxSessions
            (activeCount (applyOps (ops ++ [StoreOp.create id t]) emptyStore)) := by
  constructor
  · exact applyOps_audit ops emptyStore (by simp [emptyStore])
  · have happ : applyOps (ops ++ [StoreOp.create id t]) emptyStore
        = create_session (applyOps ops emptyStore) id t := by
      unfold applyOps
      rw [List.foldl_append]
      rfl
    rw [happ]
    exact create_session_len _ id t
      (applyOps_nodup ops emptyStore (by simp [keysNodup, emptyStore]))

set_option maxRecDepth 4000 in
/-- C7 counterexample: 101 creations with distinct ids leave all sessions
Active, eviction removes nothing, and the map holds 101 > 100 sessions. -/
theorem c7_counterexample :
    (applyOps ((List.range 101).map
      (fun i => StoreOp.create (toString i) i)) emptyStore).sessions.length
      = 101 := by rfl

/-! ## src/src-tauri/src/extensions.rs and agent/lua_extensions.rs :
extension id validation and the registry load operation

A directory is abstracted to the three reads `load_extension` performs:
the parsed manifest (none: no manifest.json; error: read or parse
failure), per-path script file contents, and the optional hooks.lua
content. -/

/-- Model of `validate_extension_id` (extensions.rs lines 19-50).  Lengths
are byte lengths as in Rust `str::len`. -/
def validate_extension_id (id : String) : Except String Unit :=
  if id = "" then .error "Extension ID cannot be empty"
  else if id.utf8ByteSize > 64 then
    .error "Extension ID cannot be longer than 64 characters"
  else if containsS ".." id then
    .error "Extension ID cannot contain '..' (path traversal not allowed)"
  else if startsWithS "/" id || startsWithS "\\" id then
    .error "Extension ID cannot start with a path separator"
  else if id.data.all (fun c => c.isAlphanum || c = '-' || c = '_') then .ok ()
  else .error "Extension ID can only contain letters, numbers, hyphens, and underscores"

/-- The fields of a manifest tool entry that `load_extension` reads. -/
structure LuaToolDefinition where
  name : String
  lua_script : Option String
  python_module : Option String
deriving DecidableEq, Repr

/-- The fields of `ExtensionManifest` that `load_extension` reads. -/
structure ExtensionManifest where
  id : String
  name : String
  version : String
  tools : List LuaToolDefinition
deriving DecidableEq, Repr

/-- A loaded extension (`LoadedExtension`; the directory field is
omitted). -/
structure LoadedExtension where
  manifest : ExtensionManifest
  scripts : List (String × String)
  hooks_script : Option String
deriving DecidableEq, Repr

/-- The registry of loaded extensions (`ExtensionRegistry`). -/
structure ExtensionRegistry where
  extensions : List (String × LoadedExtension)
  tool_to_extension : List (String × String)
deriving DecidableEq, Repr

/-- `ExtensionRegistry::new`. -/
def emptyRegistry : ExtensionRegistry := ⟨[], []⟩

/-- The reads `load_extension` performs on an extension directory. -/
structure ExtensionDir where
  manifest : Option (Except String ExtensionManifest)
  scriptFile : String → Option String
  hooks : Option String

/-- Model of `HashMap::insert` for string-keyed maps. -/
def insertAssoc {α : Type} (m : List (String × α)) (k : String) (v : α) :
    List (String × α) :=
  if m.any (fun p => decide (p.1 = k)) then
    m.map (fun p => if p.1 = k then (k, v) else p)
  else m ++ [(k, v)]

/-- The per-tool loop of `load_extension` (lua_extensions.rs lines
178-210).  The loop mutates `self.tool_to_extension` as it goes, so the
map is returned even on the error exits. -/
def loadToolsLoop (dir : ExtensionDir) (manifestId : String) :
    List LuaToolDefinition → List (String × String) → List (String × String) →
    Except String (List (String × String)) × List (String × String)
  | [], scripts, toolMap => (.ok scripts, toolMap)
  | tool :: rest, scripts, toolMap =>
    match tool.lua_script with
    | some lua_script =>
      match dir.scriptFile lua_script with
      | none =>
        (.error ("Lua script not found: " ++ lua_script ++ " for tool " ++ tool.name),
          toolMap)
      | some content =>
        loadToolsLoop dir manifestId rest (insertAssoc scripts tool.name content)
          (insertAssoc toolMap (manifestId ++ ":" ++ tool.name) manifestId)
    | none =>
      if tool.python_module.isSome then loadToolsLoop dir manifestId rest scripts toolMap
      else
        (.error ("Tool '" ++ tool.name ++ "' has neither luaScript nor pythonModule defined"),
          toolMap)

/-- Model of `ExtensionRegistry::load_extension` (lua_extensions.rs lines
160-242): parse the manifest, load every declared tool script, read
hooks.lua, and register the extension under the manifest id.  No id
validation happens anywhere on this path. -/
def load_extension (reg : ExtensionRegistry) (dir : ExtensionDir) :
    Except String Unit × ExtensionRegistry :=
  match dir.manifest with
  | none => (.error "No manifest.json found", reg)
  | some (.error e) => (.error e, reg)
  | some (.ok manifest) =>
    match loadToolsLoop dir manifest.id manifest.tools [] reg.tool_to_extension with
    | (.error e, toolMap) => (.error e, { reg with tool_to_extension := toolMap })
    | (.ok scripts, toolMap) =>
      (.ok (),
        { extensions := insertAssoc reg.extensions manifest.id
            ⟨manifest, scripts, dir.hooks⟩
          tool_to_extension := toolMap })

/-! ## Theorems for C6 -/

/-- If a nonempty pattern occurs as a substring, its first character is a
member. -/
theorem containsSub_head_mem (c : Char) (cs l : List Char)
    (h : containsSub (c :: cs) l = true) : c ∈ l := by
  induction l with
  | nil => simp [containsSub] at h
  | cons d rest ih =>
    unfold containsSub at h
    simp only [Bool.or_eq_true] at h
    rcases h with h1 | h2
    · rw [show ((c :: cs).isPrefixOf (d :: rest)) = (c == d && cs.isPrefixOf rest)
        from rfl] at h1
      simp only [Bool.and_eq_true, beq_iff_eq] at h1
      exact h1.1 ▸ List.mem_cons_self _ _
    · exact List.mem_cons.mpr (Or.inr (ih h2))

/-- If a one-character pattern is a prefix, that character is a member. -/
theorem pre_single_mem (c : Char) (l : List Char)
    (h : List.isPrefixOf [c] l = true) : c ∈ l := by
  cases l with
  | nil => simp [List.isPrefixOf] at h
  | cons d rest =>
    rw [show (List.isPrefixOf [c] (d :: rest)) = (c == d && List.isPrefixOf [] rest)
      from rfl] at h
    simp only [Bool.and_eq_true, beq_iff_eq] at h
    exact h.1 ▸ List.mem_cons_self _ _

/-- The inserted key is present afterwards. -/
theorem mem_keys_insertAssoc {α : Type} (m : List (String × α)) (k : String)
    (v : α) : k ∈ (insertAssoc m k v).map Prod.fst := by
  unfold insertAssoc
  by_cases h : m.any (fun p => decide (p.1 = k)) = true
  · rw [if_pos h]
    obtain ⟨p, hp, hpe⟩ := List.any_eq_true.mp h
    simp only [decide_eq_true_eq] at hpe
    refine List.mem_map.mpr ⟨(k, v), ?_, rfl⟩
    refine List.mem_map.mpr ⟨p, hp, ?_⟩
    simp [hpe]
  · rw [if_neg h]
    simp

/-- The tool loop succeeds when every declared tool either has a present
Lua script or is a legacy Python tool. -/
theorem loadToolsLoop_ok (dir : ExtensionDir) (mid : String)
    (tools : List LuaToolDefinition)
    (h : ∀ t ∈ tools,
      (∃ p, t.lua_script = some p ∧ (dir.scriptFile p).isSome = true) ∨
        (t.lua_script = none ∧ t.python_module.isSome = true)) :
    ∀ scripts toolMap, ∃ s2 m2,
      loadToolsLoop dir mid tools scripts toolMap = (.ok s2, m2) := by
  induction tools with
  | nil => exact fun scripts toolMap => ⟨scripts, toolMap, rfl⟩
  | cons t rest ih =>
    intro scripts toolMap
    rcases h t (by simp) with ⟨p, hp, hsome⟩ | ⟨hnone, hpy⟩
    · obtain ⟨content, hc⟩ := Option.isSome_iff_exists.mp hsome
      unfold loadToolsLoop
      simp only [hp, hc]
      exact ih (fun q hq => h q (by simp [hq])) _ _
    · unfold loadToolsLoop
      simp only [hnone, hpy, eq_self_iff_true, if_true]
      exact ih (fun q hq => h q (by simp [hq])) _ _

/-- C6 (amended): validate_extension_id accepts exactly the ids of 1 to 64
bytes whose characters are ASCII alphanumerics, hyphens or underscores;
but the registry load operation performs no id validation at all: with a
parseable manifest and loadable scripts it succeeds and registers the
manifest id whatever that id is. -/
theorem c6_id_validation (id : String) (reg : ExtensionRegistry)
    (dir : ExtensionDir) (m : ExtensionManifest)
    (hman : dir.manifest = some (.ok m))
    (hscripts : ∀ t ∈ m.tools,
      (∃ p, t.lua_script = some p ∧ (dir.scriptFile p).isSome = true) ∨
        (t.lua_script = none ∧ t.python_module.isSome = true)) :
    (validate_extension_id id = .ok () ↔
      (id ≠ "" ∧ id.utf8ByteSize ≤ 64 ∧
        ∀ c ∈ id.data, (c.isAlphanum || c = '-' || c = '_') = true)) ∧
    ((load_extension reg dir).1 = .ok () ∧
      m.id ∈ (load_extension reg dir).2.extensions.map Prod.fst) := by
  constructor
  · constructor
    · intro h
      unfold validate_extension_id at h
      split_ifs at h with h1 h2 h3 h4 h5
      · exact ⟨h1, by omega, List.all_eq_true.mp h5⟩
    · rintro ⟨hne, hlen, hchar⟩
      have hdot : ('.' : Char) ∉ id.data := by
        intro hmem
        have := hchar '.' hmem
        simp at this
      have hcontains : ¬ containsS ".." id = true := by
        intro hc
        exact hdot (containsSub_head_mem '.' ['.'] id.data hc)
      have hsep : ¬ (startsWithS "/" id || startsWithS "\\" id) = true := by
        intro hc
        simp only [Bool.or_eq_true] at hc
        rcases hc with hc | hc
        · have : ('/' : Char) ∈ id.data := pre_single_mem '/' id.data hc
          have := hchar '/' this
          simp at this
        · have : ('\\' : Char) ∈ id.data := pre_single_mem '\\' id.data hc
          have := hchar '\\' this
          simp at this
      unfold validate_extension_id
      rw [if_neg hne, if_neg (by omega), if_neg hcontains, if_neg hsep,
        if_pos (List.all_eq_true.mpr hchar)]
  · obtain ⟨s2, m2, hloop⟩ := loadToolsLoop_ok dir m.id m.tools hscripts []
      reg.tool_to_extension
    constructor
    · simp only [load_extension, hman, hloop]
    · simp only [load_extension, hman, hloop]
      exact mem_keys_insertAssoc reg.extensions m.id _

/-- The manifest of the counterexample directory: its id is the traversal
string. -/
def badManifest : ExtensionManifest :=
  ⟨"..", "Evil", "1.0.0", [⟨"t", some "t.lua", none⟩]⟩

/-- The counterexample directory: parseable manifest with invalid id and a
present script file. -/
def badDir : ExtensionDir :=
  ⟨some (.ok badManifest),
   fun p => if p = "t.lua" then some "return 1" else none, none⟩

/-- C6 counterexample: the registry load succeeds and registers the id
".." although validate_extension_id rejects that id; load_extension never
calls the validator. -/
theorem c6_counterexample :
    (load_extension emptyRegistry badDir).1 = .ok () ∧
      (load_extension emptyRegistry badDir).2.extensions.map Prod.fst = [".."] ∧
      validate_extension_id ".." =
        .error "Extension ID cannot contain '..' (path traversal not allowed)" :=
  ⟨rfl, rfl, rfl⟩

/-- The manifest of the well-formed witness directory. -/
def goodManifest : ExtensionManifest :=
  ⟨"my-ext", "My Ext", "1.0.0", [⟨"hello", some "hello.lua", none⟩]⟩

/-- The well-formed witness directory. -/
def goodDir : ExtensionDir :=
  ⟨some (.ok goodManifest),
   fun p => if p = "hello.lua" then some "function hello() end" else none, none⟩

/-- Witness for C6 (amended) at a concrete input. -/
theorem c6_witness :
    (validate_extension_id "my-ext" = .ok () ↔
      ("my-ext" ≠ "" ∧ ("my-ext" : String).utf8ByteSize ≤ 64 ∧
        ∀ c ∈ ("my-ext" : String).data, (c.isAlphanum || c = '-' || c = '_') = true)) ∧
    ((load_extension emptyRegistry goodDir).1 = .ok () ∧
      goodManifest.id ∈ (load_extension emptyRegistry goodDir).2.extensions.map
        Prod.fst) :=
  c6_id_validation "my-ext" emptyRegistry goodDir goodManifest rfl
    (by
      intro t ht
      simp only [goodManifest, List.mem_singleton] at ht
      subst ht
      exact Or.inl ⟨"hello.lua", rfl, rfl⟩)

/-! ## src/src-tauri/src/agent/core.rs : the agent loop

The loop is embedded as a state-passing recursion.  The outside world is a
record of oracles indexed by consumption counters: the LLM answer per
iteration, the successive cancellation-token reads, the successive
approval-wait outcomes, and the successive tool-dispatch results (the
extension-versus-builtin routing is folded into the dispatch oracle).
Event payloads keep the fields the claims are about; run ids and argument
values are elided.  Tool-output truncation is modelled at character level
here; its byte-level panic behaviour is the subject of C10. -/

/-- A tool call requested by the LLM (`ToolCall`; call type elided). -/
structure ToolCallM where
  id : String
  name : String
  arguments : String
deriving DecidableEq, Repr

/-- Token usage (`Usage`). -/
structure UsageM where
  prompt_tokens : Nat
  completion_tokens : Nat
  total_tokens : Nat
deriving DecidableEq, Repr

/-- A normalized LLM response (`LlmResponse`; finish reason elided). -/
structure LlmResponseM where
  content : Option String
  tool_calls : List ToolCallM
  usage : Option UsageM
deriving DecidableEq, Repr

/-- Message roles (`MessageRole`). -/
inductive MessageRoleM where
  | developer
  | system
  | user
  | assistant
  | tool
deriving DecidableEq, Repr

/-- A conversation message (`Message`). -/
structure MessageM where
  role : MessageRoleM
  content : Option String
  tool_calls : Option (List ToolCallM)
  tool_call_id : Option String
deriving DecidableEq, Repr

/-- `Message::system`. -/
def MessageM.systemMsg (content : String) : MessageM :=
  ⟨.system, some content, none, none⟩

/-- `Message::developer`. -/
def MessageM.developerMsg (content : String) : MessageM :=
  ⟨.developer, some content, none, none⟩

/-- `Message::user`. -/
def MessageM.userMsg (content : String) : MessageM :=
  ⟨.user, some content, none, none⟩

/-- `Message::assistant_with_tools`. -/
def MessageM.assistant_with_tools (content : Option String)
    (tool_calls : List ToolCallM) : MessageM :=
  ⟨.assistant, content, some tool_calls, none⟩

/-- `Message::tool_result`. -/
def MessageM.toolResultMsg (tool_call_id content : String) : MessageM :=
  ⟨.tool, some content, none, some tool_call_id⟩

/-- A tool execution record (`ToolResult`; the truncated flag is always
None on the constructors used by the loop). -/
structure ToolResultM where
  tool_call_id : String
  output : String
  success : Bool
deriving DecidableEq, Repr

/-- `ToolResult::success`. -/
def ToolResultM.successR (tool_call_id output : String) : ToolResultM :=
  ⟨tool_call_id, output, true⟩

/-- `ToolResult::error`: prefixes the body with ERROR. -/
def ToolResultM.errorR (tool_call_id err : String) : ToolResultM :=
  ⟨tool_call_id, "ERROR: " ++ err, false⟩

/-- Events emitted during agent execution (`AgentEvent`; run ids and raw
argument values elided). -/
inductive AgentEventM where
  | start (task : String)
  | toolCallStart (name : String)
  | toolCallComplete (name : String) (result : String) (success : Bool)
      (truncated : Bool)
  | textChunk (content : String)
  | complete (response : String) (usage : Option UsageM)
  | error (err : String)
  | cancelled
  | toolApprovalRequired (name : String) (risk : ToolRisk)
  | toolSkipped (name : String)
deriving DecidableEq, Repr

/-- The terminal events named by the spec. -/
def isTerminal : AgentEventM → Bool
  | .complete _ _ => true
  | .error _ => true
  | .cancelled => true
  | _ => false

/-- Number of terminal events in a trace. -/
def terminalCount (evs : List AgentEventM) : Nat := (evs.filter isTerminal).length

/-- The errors `run_agent` can produce (`AgentError`; the tool and path
variants never escape the loop). -/
inductive AgentErrorM where
  | llmError (msg : String)
  | configError (msg : String)
  | maxIterationsReached
  | cancelledErr
deriving DecidableEq, Repr

/-- The `Display` implementation of `AgentError` (types.rs lines 576-587). -/
def AgentErrorM.display : AgentErrorM → String
  | .llmError msg => "LLM error: " ++ msg
  | .configError msg => "Config error: " ++ msg
  | .maxIterationsReached => "Max iterations reached"
  | .cancelledErr => "Request cancelled"

/-- LLM provider selection (`LlmProvider`). -/
inductive LlmProviderM where
  | openai
  | claude
  | ollama
  | openrouter
deriving DecidableEq, Repr

/-- The fields of `AgentConfig` the loop control flow reads. -/
structure AgentConfigM where
  provider : LlmProviderM
  approval_mode : ApprovalMode
  max_iterations : Nat
deriving DecidableEq, Repr

/-- Outcome of one approval wait: the select arm that fires first. -/
inductive WaitRes where
  | cancel
  | got (approved : Bool)
  | timeout
deriving DecidableEq, Repr

/-- The oracles a run consumes. -/
structure LoopEnv where
  llm : Nat → Except AgentErrorM LlmResponseM
  cancelled : Nat → Bool
  wait : Nat → WaitRes
  dispatch : Nat → Except String String
  hasEventTx : Bool
  storeAvailable : Bool
  hasCancelToken : Bool

/-- The mutable state of a run plus the oracle consumption counters. -/
structure LoopSt where
  events : List AgentEventM
  conversation : List MessageM
  tool_results : List ToolResultM
  total_usage : Option UsageM
  cancelIdx : Nat
  waitIdx : Nat
  dispatchIdx : Nat
deriving Repr

/-- Send an event when a sink is attached. -/
def emit (env : LoopEnv) (st : LoopSt) (e : AgentEventM) : LoopSt :=
  if env.hasEventTx then { st with events := st.events ++ [e] } else st

/-- One cancellation check: queries the token only when one was passed. -/
def checkCancelled (env : LoopEnv) (st : LoopSt) : Bool × LoopSt :=
  if env.hasCancelToken then
    (env.cancelled st.cancelIdx, { st with cancelIdx := st.cancelIdx + 1 })
  else (false, st)

/-- Usage accumulation (core.rs lines 140-150). -/
def mergeUsage : Option UsageM → Option UsageM → Option UsageM
  | total, none => total
  | some ex, some u =>
    some ⟨ex.prompt_tokens + u.prompt_tokens,
      ex.completion_tokens + u.completion_tokens,
      ex.total_tokens + u.total_tokens⟩
  | none, some u => some u

/-- The 8000-byte output truncation (core.rs lines 338-353), character
level stand-in. -/
def truncateOutput (output : String) : String × Bool :=
  if output.length > 8000 then
    (String.mk (output.data.take 8000) ++ "...\n\n[Output truncated: " ++
      toString output.length ++ " bytes total]", true)
  else (output, false)

/-- Result of handling one tool call: continue, or abort the run. -/
inductive StepRes where
  | cont (st : LoopSt)
  | halt (st : LoopSt) (e : AgentErrorM)

/-- Tool execution and result recording (core.rs lines 316-379). -/
def executeTool (env : LoopEnv) (st0 : LoopSt) (tc : ToolCallM) : StepRes :=
  let st1 := emit env st0 (.toolCallStart tc.name)
  let st2 := { st1 with dispatchIdx := st1.dispatchIdx + 1 }
  match env.dispatch st1.dispatchIdx with
  | .ok output =>
    let t := truncateOutput output
    let st3 := { st2 with
      tool_results := st2.tool_results ++ [ToolResultM.successR tc.id t.1] }
    let st4 := emit env st3 (.toolCallComplete tc.name t.1 true t.2)
    .cont { st4 with
      conversation := st4.conversation ++ [MessageM.toolResultMsg tc.id t.1] }
  | .error e =>
    let st3 := { st2 with
      tool_results := st2.tool_results ++ [ToolResultM.errorR tc.id ("ERROR: " ++ e)] }
    let st4 := emit env st3 (.toolCallComplete tc.name ("ERROR: " ++ e) false false)
    .cont { st4 with
      conversation := st4.conversation ++
        [MessageM.toolResultMsg tc.id ("ERROR: " ++ e)] }

/-- Denial handling and the hand-off to execution (core.rs lines 292-314). -/
def afterApproval (env : LoopEnv) (st : LoopSt) (tc : ToolCallM)
    (approved : Bool) : StepRes :=
  if approved = false then
    let denial := "DENIED: Tool execution was blocked by user approval."
    let st1 := emit env st (.toolCallComplete tc.name denial false false)
    .cont { st1 with
      conversation := st1.conversation ++ [MessageM.toolResultMsg tc.id denial]
      tool_results := st1.tool_results ++ [ToolResultM.errorR tc.id denial] }
  else executeTool env st tc

/-- Handling of one tool call in the loop body (core.rs lines 163-379):
cancellation re-check, dry-run short circuit, the approval gate, then
execution.  When no approval store is available the code logs a warning
and proceeds with approved = true. -/
def processToolCall (env : LoopEnv) (cfg : AgentConfigM) (st0 : LoopSt)
    (tc : ToolCallM) : StepRes :=
  let c := checkCancelled env st0
  if c.1 then .halt (emit env c.2 .cancelled) .cancelledErr
  else
    let risk := ToolRisk.for_tool tc.name
    if cfg.approval_mode = ApprovalMode.dryRun then
      let st1 := emit env c.2 (.toolSkipped tc.name)
      let dryOut := "[DRY-RUN] Would execute tool '" ++ tc.name ++ "' with args: " ++
        tc.arguments
      .cont { st1 with
        conversation := st1.conversation ++ [MessageM.toolResultMsg tc.id dryOut]
        tool_results := st1.tool_results ++ [ToolResultM.successR tc.id dryOut] }
    else if cfg.approval_mode.needs_approval risk = true ∧
        cfg.approval_mode ≠ ApprovalMode.autoApprove then
      let st1 := emit env c.2 (.toolApprovalRequired tc.name risk)
      if env.storeAvailable then
        let st2 := { st1 with waitIdx := st1.waitIdx + 1 }
        if env.hasCancelToken then
          match env.wait st1.waitIdx with
          | .cancel => .halt st2 .cancelledErr
          | .got b => afterApproval env st2 tc b
          | .timeout => afterApproval env st2 tc false
        else
          match env.wait st1.waitIdx with
          | .got b => afterApproval env st2 tc b
          | _ => afterApproval env st2 tc false
      else afterApproval env st1 tc true
    else executeTool env c.2 tc

/-- Sequential processing of the tool calls of one iteration. -/
def processToolCalls (env : LoopEnv) (cfg : AgentConfigM) :
    List ToolCallM → LoopSt → StepRes
  | [], st => .cont st
  | tc :: rest, st =>
    match processToolCall env cfg st tc with
    | .halt st1 e => .halt st1 e
    | .cont st1 => processToolCalls env cfg rest st1

/-- The final value of a run (`AgentRunResult`). -/
structure AgentRunResultM where
  response : String
  tool_results : List ToolResultM
  usage : Option UsageM
deriving DecidableEq, Repr

/-- The iteration loop of `run_agent` (core.rs lines 118-422), with the
remaining iteration budget as fuel and the iteration index feeding the LLM
oracle. -/
def runLoop (env : LoopEnv) (cfg : AgentConfigM) :
    Nat → Nat → LoopSt → LoopSt × Except AgentErrorM AgentRunResultM
  | 0, _, st =>
    (emit env st (.error ("Agent reached maximum iterations (" ++
      toString cfg.max_iterations ++ ") without completing")),
      .error .maxIterationsReached)
  | fuel + 1, iter, st0 =>
    let c := checkCancelled env st0
    if c.1 then (emit env c.2 .cancelled, .error .cancelledErr)
    else
      match env.llm iter with
      | .error e => (c.2, .error e)
      | .ok resp =>
        let st1 := { c.2 with total_usage := mergeUsage c.2.total_usage resp.usage }
        if resp.tool_calls.isEmpty then
          let final := resp.content.getD ""
          let st2 := emit env st1 (.complete final st1.total_usage)
          (st2, .ok ⟨final, st2.tool_results, st2.total_usage⟩)
        else
          let st2 := { st1 with conversation := st1.conversation ++
            [MessageM.assistant_with_tools resp.content resp.tool_calls] }
          match processToolCalls env cfg resp.tool_calls st2 with
          | .halt st3 e => (st3, .error e)
          | .cont st3 => runLoop env cfg fuel (iter + 1) st3

/-- Model of `run_agent` (core.rs lines 62-422). -/
def run_agent (env : LoopEnv) (cfg : AgentConfigM) (task system_prompt : String)
    (messages : List MessageM) : LoopSt × Except AgentErrorM AgentRunResultM :=
  let st0 := emit env ⟨[], [], [], none, 0, 0, 0⟩ (.start task)
  let sysMsg := if cfg.provider = LlmProviderM.openai then
      MessageM.developerMsg system_prompt
    else MessageM.systemMsg system_prompt
  runLoop env cfg cfg.max_iterations 0
    { st0 with conversation := [sysMsg] ++ messages ++ [MessageM.userMsg task] }

/-! ## src/src-tauri/src/agent_commands.rs : the run_native_agent command

The command surface is embedded over the loop model: input validation,
the concurrency cap with registration in the running-tasks map, config
conversion, session creation, the agent run, cleanup, and result
handling.  Lock poisoning and the extension-registry read are elided
(they cannot fail in this model); the workspace checks are oracles. -/

/-- `MAX_CONCURRENT_RUNS` (agent_commands.rs line 23). -/
def MAX_CONCURRENT_RUNS : Nat := 3

/-- The fields of `InputConfig` read by validation and conversion.  The
f32 temperature travels as an exact rational. -/
structure InputConfigM where
  provider : LlmProviderM
  api_key : Option String
  model : String
  temperature : ℚ
  max_tokens : Nat
  max_iterations : Nat
  base_url : Option String
  approval_mode : ApprovalMode
deriving DecidableEq, Repr

/-- Model of `InputConfig::validate` (agent_commands.rs lines 105-149). -/
def InputConfigM.validate (c : InputConfigM) : Except String Unit :=
  if c.model = "" then .error "Model name cannot be empty"
  else if c.model.utf8ByteSize > 100 then
    .error "Model name too long (max 100 characters)"
  else if c.temperature < 0 ∨ c.temperature > 2 then
    .error "Temperature must be between 0.0 and 2.0"
  else if c.max_tokens = 0 then .error "max_tokens must be at least 1"
  else if c.max_tokens > 200000 then .error "max_tokens cannot exceed 200000"
  else if c.max_iterations = 0 then .error "max_iterations must be at least 1"
  else if c.max_iterations > 100 then .error "max_iterations cannot exceed 100"
  else
    match c.base_url with
    | some url =>
      if url = "" then .error "base_url cannot be empty if provided"
      else if !(startsWithS "http://" url || startsWithS "https://" url) then
        .error "base_url must start with http:// or https://"
      else .ok ()
    | none => .ok ()

/-- Model of `InputConfig::into_agent_config` (agent_commands.rs lines
152-180): validate, then resolve the api key from the frontend value or
the credential manager. -/
def InputConfigM.into_agent_config (c : InputConfigM)
    (credentials : LlmProviderM → Option String) :
    Except String AgentConfigM :=
  match c.validate with
  | .error e => .error e
  | .ok _ =>
    match c.api_key.filter (fun k => !decide (k = "")) with
    | some _ => .ok ⟨c.provider, c.approval_mode, c.max_iterations⟩
    | none =>
      match credentials c.provider with
      | some _ => .ok ⟨c.provider, c.approval_mode, c.max_iterations⟩
      | none =>
        .error "No API key configured for provider. Please set your API key in Settings."

/-- The per-invocation inputs of `run_native_agent`. -/
structure NativeEnv where
  task : String
  system_prompt : String
  messages : List MessageM
  workspaceExists : Bool
  workspaceIsDir : Bool
  workspaceCanonOk : Bool
  config : InputConfigM
  credentials : LlmProviderM → Option String
  runId : String
  sessionId : String
  createdAt : Nat

/-- The shared state `run_native_agent` touches: the running-tasks map
(cancellation tokens elided, keyed by run id) and the session store. -/
structure NativeState where
  running_tasks : List String
  store : SessionStore

/-- `AgentResult` returned to the frontend. -/
structure AgentResultM where
  success : Bool
  response : Option String
  error : Option String
  tool_call_count : Nat
deriving DecidableEq, Repr

/-- What one `run_native_agent` invocation produces: the command result,
the events that reached the frontend stream, and the final shared state. -/
structure NativeOutcome where
  result : Except String AgentResultM
  events : List AgentEventM
  state : NativeState

/-- The capacity error string (agent_commands.rs lines 255-259 and
275-279). -/
def capacityMsg (n : Nat) : String :=
  "Too many concurrent agent runs (" ++ toString n ++ "/" ++
    toString MAX_CONCURRENT_RUNS ++
    "). Please wait for an existing run to complete or cancel one."

/-- `HashMap::insert` on the running-tasks key set. -/
def registerTask (tasks : List String) (id : String) : List String :=
  if tasks.contains id then tasks else tasks ++ [id]

/-- `HashMap::remove` on the running-tasks key set (the cleanup after the
agent run, agent_commands.rs lines 338-343). -/
def cleanupTasks (tasks : List String) (id : String) : List String :=
  tasks.filter (fun tid => !decide (tid = id))

/-- The registered part of `run_native_agent` (agent_commands.rs lines
263-393): register the run id, convert the configuration (the error path
exits without cleanup), create the session, run the agent, clean up, and
handle the result. -/
def runNativeCore (env : LoopEnv) (ne : NativeEnv) (ns : NativeState) :
    NativeOutcome :=
  match ne.config.into_agent_config ne.credentials with
  | .error e =>
    ⟨.error e, [], { ns with running_tasks := registerTask ns.running_tasks ne.runId }⟩
  | .ok agent_config =>
    match (run_agent env agent_config ne.task ne.system_prompt ne.messages).2 with
    | .ok result =>
      ⟨.ok ⟨true, some result.response, none, result.tool_results.length⟩,
        (run_agent env agent_config ne.task ne.system_prompt ne.messages).1.events,
        ⟨cleanupTasks (registerTask ns.running_tasks ne.runId) ne.runId,
          update_session (create_session ns.store ne.sessionId ne.createdAt)
            ne.sessionId (fun s => { s with status := .completed })⟩⟩
    | .error e =>
      ⟨.ok ⟨false, none, some e.display, 0⟩,
        (run_agent env agent_config ne.task ne.system_prompt ne.messages).1.events
          ++ [.error e.display],
        ⟨cleanupTasks (registerTask ns.running_tasks ne.runId) ne.runId,
          update_session (create_session ns.store ne.sessionId ne.createdAt)
            ne.sessionId (fun s =>
              if containsS "cancelled" e.display ∨ containsS "Cancelled" e.display
              then { s with status := .cancelled }
              else { s with status := .failed })⟩⟩

/-- Model of `run_native_agent` (agent_commands.rs lines 207-393). -/
def run_native_agent (env : LoopEnv) (ne : NativeEnv) (ns : NativeState) :
    NativeOutcome :=
  if ne.task = "" then ⟨.error "Task cannot be empty", [], ns⟩
  else if ne.task.utf8ByteSize > 100000 then
    ⟨.error "Task too long (max 100000 characters)", [], ns⟩
  else if ne.system_prompt.utf8ByteSize > 50000 then
    ⟨.error "System prompt too long (max 50000 characters)", [], ns⟩
  else if ne.messages.length > 100 then
    ⟨.error "Too many messages in history (max 100)", [], ns⟩
  else if ne.workspaceExists = false then
    ⟨.error "Workspace path does not exist", [], ns⟩
  else if ne.workspaceIsDir = false then
    ⟨.error "Workspace path is not a directory", [], ns⟩
  else if ne.workspaceCanonOk = false then
    ⟨.error "Failed to resolve workspace path", [], ns⟩
  else if ns.running_tasks.length ≥ MAX_CONCURRENT_RUNS then
    ⟨.error (capacityMsg ns.running_tasks.length), [], ns⟩
  else if ns.running_tasks.length ≥ MAX_CONCURRENT_RUNS then
    ⟨.error (capacityMsg ns.running_tasks.length), [], ns⟩
  else runNativeCore env ne ns

/-! ## Theorems for C3 and C5 -/

/-- Events recorded so far are preserved by a cancellation check. -/
theorem checkCancelled_events (env : LoopEnv) (st : LoopSt) :
    (checkCancelled env st).2.events = st.events := by
  unfold checkCancelled
  split <;> rfl

/-- A cancellation check does not consume a dispatch slot. -/
theorem checkCancelled_dispatchIdx (env : LoopEnv) (st : LoopSt) :
    (checkCancelled env st).2.dispatchIdx = st.dispatchIdx := by
  unfold checkCancelled
  split <;> rfl

/-- Emitting preserves the dispatch counter. -/
theorem emit_dispatchIdx (env : LoopEnv) (st : LoopSt) (e : AgentEventM) :
    (emit env st e).dispatchIdx = st.dispatchIdx := by
  unfold emit
  split <;> rfl

/-- With a sink attached, emitting appends the event. -/
theorem emit_events_tx (env : LoopEnv) (st : LoopSt) (e : AgentEventM)
    (htx : env.hasEventTx = true) :
    (emit env st e).events = st.events ++ [e] := by
  unfold emit
  rw [if_pos htx]

/-- executeTool always continues, consumes exactly one dispatch slot, and
(with a sink) emits the ToolCallStart event. -/
theorem executeTool_spec (env : LoopEnv) (st : LoopSt) (tc : ToolCallM) :
    ∃ st', executeTool env st tc = .cont st' ∧
      st'.dispatchIdx = st.dispatchIdx + 1 ∧
      (env.hasEventTx = true → AgentEventM.toolCallStart tc.name ∈ st'.events) := by
  simp only [executeTool]
  split
  · refine ⟨_, rfl, ?_, ?_⟩
    · simp [emit_dispatchIdx]
    · intro htx
      simp [emit_events_tx env _ _ htx, emit_events_tx env st _ htx]
  · refine ⟨_, rfl, ?_, ?_⟩
    · simp [emit_dispatchIdx]
    · intro htx
      simp [emit_events_tx env _ _ htx, emit_events_tx env st _ htx]

/-- C3 (amended): when no approval store is available, an approval-requiring
tool call is not denied: the loop logs a warning, treats it as approved,
and executes the tool (one dispatch slot is consumed and ToolCallStart is
emitted). -/
theorem c3_missing_store_auto_approves (env : LoopEnv) (cfg : AgentConfigM)
    (st : LoopSt) (tc : ToolCallM)
    (hstore : env.storeAvailable = false)
    (hmode : cfg.approval_mode ≠ ApprovalMode.dryRun)
    (hcancel : (checkCancelled env st).1 = false) :
    ∃ st', processToolCall env cfg st tc = .cont st' ∧
      st'.dispatchIdx = st.dispatchIdx + 1 ∧
      (env.hasEventTx = true → AgentEventM.toolCallStart tc.name ∈ st'.events) := by
  simp only [processToolCall]
  rw [hcancel]
  simp only [Bool.false_eq_true, if_false, if_neg hmode]
  by_cases hgate : (cfg.approval_mode.needs_approval (ToolRisk.for_tool tc.name) = true ∧
      cfg.approval_mode ≠ ApprovalMode.autoApprove)
  · rw [if_pos hgate, if_neg (by simp [hstore])]
    show ∃ st', afterApproval env (emit env (checkCancelled env st).2 _) tc true = _ ∧ _
    unfold afterApproval
    simp only [Bool.true_eq_false, if_false]
    obtain ⟨st', h1, h2, h3⟩ :=
      executeTool_spec env (emit env (checkCancelled env st).2
        (.toolApprovalRequired tc.name (ToolRisk.for_tool tc.name))) tc
    refine ⟨st', h1, ?_, h3⟩
    rw [h2, emit_dispatchIdx, checkCancelled_dispatchIdx]
  · rw [if_neg hgate]
    obtain ⟨st', h1, h2, h3⟩ := executeTool_spec env (checkCancelled env st).2 tc
    refine ⟨st', h1, ?_, h3⟩
    rw [h2, checkCancelled_dispatchIdx]

/-- Environment for the C3 counterexample: no approval store attached. -/
def envC3 : LoopEnv :=
  ⟨fun _ => .error (.llmError "unused"), fun _ => false, fun _ => .timeout,
   fun _ => .ok "deleted", true, false, true⟩

/-- Configuration for the C3 counterexample: ApproveAll. -/
def cfgC3 : AgentConfigM := ⟨.openai, .approveAll, 8⟩

/-- The empty loop state. -/
def st0Loop : LoopSt := ⟨[], [], [], none, 0, 0, 0⟩

/-- A high-risk tool call. -/
def tcDelete : ToolCallM := ⟨"call-1", "delete_file", ""⟩

/-- C3 counterexample: mode ApproveAll, risk High, approval store absent:
the call is executed (ToolApprovalRequired, then ToolCallStart and a
successful ToolCallComplete), not denied. -/
theorem c3_counterexample :
    processToolCall envC3 cfgC3 st0Loop tcDelete = .cont
      ⟨[.toolApprovalRequired "delete_file" .high, .toolCallStart "delete_file",
        .toolCallComplete "delete_file" "deleted" true false],
       [MessageM.toolResultMsg "call-1" "deleted"],
       [ToolResultM.successR "call-1" "deleted"], none, 1, 0, 1⟩ := by rfl

/-- Witness for C3 (amended) at a concrete input. -/
theorem c3_witness :
    ∃ st', processToolCall envC3 cfgC3 st0Loop tcDelete = .cont st' ∧
      st'.dispatchIdx = st0Loop.dispatchIdx + 1 ∧
      (envC3.hasEventTx = true →
        AgentEventM.toolCallStart tcDelete.name ∈ st'.events) :=
  c3_missing_store_auto_approves envC3 cfgC3 st0Loop tcDelete rfl
    (by decide) rfl

/-- C5 (amended): whenever configuration conversion succeeds, the
running-tasks entry of the run is gone on every exit path; the leak of the
original claim needs the conversion to fail. -/
theorem c5_cleanup (envL : LoopEnv) (ne : NativeEnv) (ns : NativeState)
    (hfresh : ne.runId ∉ ns.running_tasks)
    (hconf : ∃ c, ne.config.into_agent_config ne.credentials = .ok c) :
    ne.runId ∉ (run_native_agent envL ne ns).state.running_tasks := by
  obtain ⟨c, hc⟩ := hconf
  have hcore : ne.runId ∉ (runNativeCore envL ne ns).state.running_tasks := by
    unfold runNativeCore
    rw [hc]
    split
    · rename_i heq
      simp at heq
    · split <;> simp [cleanupTasks, List.mem_filter]
  unfold run_native_agent
  repeat' split
  all_goals first
    | exact hfresh
    | exact hcore

/-- Credentials oracle with a key for every provider. -/
def credAll : LlmProviderM → Option String := fun _ => some "env-key"

/-- An input configuration whose validation fails: empty model name. -/
def cfgBadModel : InputConfigM :=
  ⟨.openai, some "k", "", 1, 4096, 8, none, .autoApprove⟩

/-- A valid input configuration. -/
def cfgGood : InputConfigM :=
  ⟨.openai, some "k", "gpt-5-mini", 1, 4096, 8, none, .autoApprove⟩

/-- A loop environment whose LLM immediately answers without tools. -/
def envSimple : LoopEnv :=
  ⟨fun _ => .ok ⟨some "done", [], none⟩, fun _ => false, fun _ => .timeout,
   fun _ => .ok "", true, true, true⟩

/-- Command inputs with the invalid configuration. -/
def neBad : NativeEnv :=
  ⟨"t", "sys", [], true, true, true, cfgBadModel, credAll, "r1", "s1", 0⟩

/-- Command inputs with the valid configuration. -/
def neGood : NativeEnv :=
  ⟨"t", "sys", [], true, true, true, cfgGood, credAll, "r1", "s1", 0⟩

/-- The empty shared state. -/
def nsEmpty : NativeState := ⟨[], emptyStore⟩

/-- C5 counterexample: configuration conversion fails after the run id was
registered, the command exits through the question-mark operator, and the
entry is left in the running-tasks map. -/
theorem c5_counterexample :
    (run_native_agent envSimple neBad nsEmpty).result =
        .error "Model name cannot be empty" ∧
      (run_native_agent envSimple neBad nsEmpty).state.running_tasks = ["r1"] :=
  ⟨rfl, rfl⟩

/-- Witness for C5 (amended) at a concrete input. -/
theorem c5_witness :
    neGood.runId ∉ (run_native_agent envSimple neGood nsEmpty).state.running_tasks :=
  c5_cleanup envSimple neGood nsEmpty (by simp [nsEmpty])
    ⟨⟨.openai, .autoApprove, 8⟩, rfl⟩

/-! ## Theorems for C4: terminal-event discipline -/

/-- The events a step appends are terminal-free. -/
def contDelta (st st2 : LoopSt) : Prop :=
  ∃ Δ, st2.events = st.events ++ Δ ∧ Δ.filter isTerminal = []

/-- The events an aborting step appends are terminal-free except possibly
one trailing Cancelled. -/
def haltDelta (st st2 : LoopSt) : Prop :=
  ∃ Δ, st2.events = st.events ++ Δ ∧
    (Δ.filter isTerminal = [] ∨
      ∃ Δ2, Δ = Δ2 ++ [AgentEventM.cancelled] ∧ Δ2.filter isTerminal = [])

/-- contDelta is reflexive. -/
theorem contDelta_refl (st : LoopSt) : contDelta st st := ⟨[], by simp, rfl⟩

/-- contDelta composes. -/
theorem contDelta_trans {a b c : LoopSt} (h1 : contDelta a b)
    (h2 : contDelta b c) : contDelta a c := by
  obtain ⟨Δ1, he1, hf1⟩ := h1
  obtain ⟨Δ2, he2, hf2⟩ := h2
  exact ⟨Δ1 ++ Δ2, by rw [he2, he1, List.append_assoc],
    by simp [List.filter_append, hf1, hf2]⟩

/-- contDelta then haltDelta is haltDelta. -/
theorem contDelta_halt_trans {a b c : LoopSt} (h1 : contDelta a b)
    (h2 : haltDelta b c) : haltDelta a c := by
  obtain ⟨Δ1, he1, hf1⟩ := h1
  obtain ⟨Δ2, he2, hd⟩ := h2
  refine ⟨Δ1 ++ Δ2, by rw [he2, he1, List.append_assoc], ?_⟩
  rcases hd with hf2 | ⟨Δ3, he3, hf3⟩
  · exact Or.inl (by simp [List.filter_append, hf1, hf2])
  · exact Or.inr ⟨Δ1 ++ Δ3, by rw [he3, List.append_assoc],
      by simp [List.filter_append, hf1, hf3]⟩

/-- executeTool continues and appends only non-terminal events. -/
theorem executeTool_delta (env : LoopEnv) (st : LoopSt) (tc : ToolCallM)
    (htx : env.hasEventTx = true) :
    ∃ st2, executeTool env st tc = .cont st2 ∧ contDelta st st2 := by
  simp only [executeTool]
  split
  · rename_i output heq
    refine ⟨_, rfl, ⟨[.toolCallStart tc.name,
      .toolCallComplete tc.name (truncateOutput output).1 true
        (truncateOutput output).2], ?_, rfl⟩⟩
    show (emit env _ _).events = _
    rw [emit_events_tx _ _ _ htx]
    show (emit env st _).events ++ _ = _
    rw [emit_events_tx _ _ _ htx]
    simp
  · rename_i e heq
    refine ⟨_, rfl, ⟨[.toolCallStart tc.name,
      .toolCallComplete tc.name ("ERROR: " ++ e) false false], ?_, rfl⟩⟩
    show (emit env _ _).events = _
    rw [emit_events_tx _ _ _ htx]
    show (emit env st _).events ++ _ = _
    rw [emit_events_tx _ _ _ htx]
    simp

/-- afterApproval continues and appends only non-terminal events. -/
theorem afterApproval_delta (env : LoopEnv) (st : LoopSt) (tc : ToolCallM)
    (approved : Bool) (htx : env.hasEventTx = true) :
    ∃ st2, afterApproval env st tc approved = .cont st2 ∧ contDelta st st2 := by
  unfold afterApproval
  by_cases happ : approved = false
  · rw [if_pos happ]
    refine ⟨_, rfl, ⟨[.toolCallComplete tc.name
      "DENIED: Tool execution was blocked by user approval." false false], ?_, rfl⟩⟩
    show (emit env st _).events = _
    rw [emit_events_tx _ _ _ htx]
  · rw [if_neg happ]
    exact executeTool_delta env st tc htx

/-- One tool call either continues with terminal-free new events, or
aborts with Cancelled and at most one trailing Cancelled event. -/
theorem processToolCall_spec (env : LoopEnv) (cfg : AgentConfigM)
    (st : LoopSt) (tc : ToolCallM) (htx : env.hasEventTx = true) :
    (∃ st2, processToolCall env cfg st tc = .cont st2 ∧ contDelta st st2) ∨
    (∃ st2, processToolCall env cfg st tc = .halt st2 .cancelledErr ∧
      haltDelta st st2) := by
  have hbase : contDelta st (checkCancelled env st).2 :=
    ⟨[], by rw [checkCancelled_events]; simp, rfl⟩
  simp only [processToolCall]
  cases hcan : (checkCancelled env st).1 with
  | true =>
    rw [if_pos rfl]
    right
    refine ⟨_, rfl, ⟨[.cancelled], ?_, Or.inr ⟨[], rfl, rfl⟩⟩⟩
    rw [emit_events_tx _ _ _ htx, checkCancelled_events]
  | false =>
    simp only [Bool.false_eq_true, if_false]
    by_cases hdry : cfg.approval_mode = ApprovalMode.dryRun
    · rw [if_pos hdry]
      left
      refine ⟨_, rfl, ⟨[.toolSkipped tc.name], ?_, rfl⟩⟩
      show (emit env _ _).events = _
      rw [emit_events_tx _ _ _ htx, checkCancelled_events]
    · rw [if_neg hdry]
      by_cases hgate : (cfg.approval_mode.needs_approval (ToolRisk.for_tool tc.name) = true ∧
          cfg.approval_mode ≠ ApprovalMode.autoApprove)
      · rw [if_pos hgate]
        have hreq : contDelta st (emit env (checkCancelled env st).2
            (.toolApprovalRequired tc.name (ToolRisk.for_tool tc.name))) := by
          refine ⟨[.toolApprovalRequired tc.name (ToolRisk.for_tool tc.name)], ?_, rfl⟩
          rw [emit_events_tx _ _ _ htx, checkCancelled_events]
        by_cases hstore : env.storeAvailable = true
        · rw [if_pos hstore]
          by_cases htok : env.hasCancelToken = true
          · rw [if_pos htok]
            cases hw : env.wait (emit env (checkCancelled env st).2
                (.toolApprovalRequired tc.name (ToolRisk.for_tool tc.name))).waitIdx with
            | cancel =>
              right
              refine ⟨_, rfl, ?_⟩
              obtain ⟨Δ, he, hf⟩ := hreq
              exact ⟨Δ, he, Or.inl hf⟩
            | got b =>
              obtain ⟨st2, h1, h2⟩ := afterApproval_delta env _ tc b htx
              left
              refine ⟨st2, h1, contDelta_trans (contDelta_trans hreq ⟨[], by simp, rfl⟩) h2⟩
            | timeout =>
              obtain ⟨st2, h1, h2⟩ := afterApproval_delta env _ tc false htx
              left
              refine ⟨st2, h1, contDelta_trans (contDelta_trans hreq ⟨[], by simp, rfl⟩) h2⟩
          · rw [if_neg htok]
            cases hw : env.wait (emit env (checkCancelled env st).2
                (.toolApprovalRequired tc.name (ToolRisk.for_tool tc.name))).waitIdx with
            | cancel =>
              obtain ⟨st2, h1, h2⟩ := afterApproval_delta env _ tc false htx
              left
              refine ⟨st2, h1, contDelta_trans (contDelta_trans hreq ⟨[], by simp, rfl⟩) h2⟩
            | got b =>
              obtain ⟨st2, h1, h2⟩ := afterApproval_delta env _ tc b htx
              left
              refine ⟨st2, h1, contDelta_trans (contDelta_trans hreq ⟨[], by simp, rfl⟩) h2⟩
            | timeout =>
              obtain ⟨st2, h1, h2⟩ := afterApproval_delta env _ tc false htx
              left
              refine ⟨st2, h1, contDelta_trans (contDelta_trans hreq ⟨[], by simp, rfl⟩) h2⟩
        · rw [if_neg hstore]
          obtain ⟨st2, h1, h2⟩ := afterApproval_delta env _ tc true htx
          left
          exact ⟨st2, h1, contDelta_trans hreq h2⟩
      · rw [if_neg hgate]
        obtain ⟨st2, h1, h2⟩ := executeTool_delta env _ tc htx
        left
        exact ⟨st2, h1, contDelta_trans hbase h2⟩

/-- The tool calls of one iteration: terminal-free continuation, or an
abort with at most one trailing Cancelled. -/
theorem processToolCalls_spec (env : LoopEnv) (cfg : AgentConfigM)
    (htx : env.hasEventTx = true) :
    ∀ (tcs : List ToolCallM) (st : LoopSt),
    (∃ st2, processToolCalls env cfg tcs st = .cont st2 ∧ contDelta st st2) ∨
    (∃ st2, processToolCalls env cfg tcs st = .halt st2 .cancelledErr ∧
      haltDelta st st2) := by
  intro tcs
  induction tcs with
  | nil => exact fun st => Or.inl ⟨st, rfl, contDelta_refl st⟩
  | cons tc rest ih =>
    intro st
    rcases processToolCall_spec env cfg st tc htx with ⟨st1, h1, hc1⟩ | ⟨st1, h1, hh1⟩
    · have hstep : processToolCalls env cfg (tc :: rest) st
          = processToolCalls env cfg rest st1 := by
        simp only [processToolCalls, h1]
      rw [hstep]
      rcases ih st1 with ⟨st2, h2, hc2⟩ | ⟨st2, h2, hh2⟩
      · exact Or.inl ⟨st2, h2, contDelta_trans hc1 hc2⟩
      · exact Or.inr ⟨st2, h2, contDelta_halt_trans hc1 hh2⟩
    · right
      refine ⟨st1, ?_, hh1⟩
      simp only [processToolCalls, h1]

/-- The terminal-event discipline of a loop result, relative to the events
already present when the loop was entered. -/
def loopEventsSpec (base : List AgentEventM)
    (r : LoopSt × Except AgentErrorM AgentRunResultM) : Prop :=
  match r.2 with
  | .ok res => ∃ Δ u, r.1.events = base ++ Δ ++ [.complete res.response u] ∧
      Δ.filter isTerminal = []
  | .error .maxIterationsReached => ∃ Δ m,
      r.1.events = base ++ Δ ++ [.error m] ∧ Δ.filter isTerminal = []
  | .error .cancelledErr => ∃ Δ, r.1.events = base ++ Δ ∧
      (Δ.filter isTerminal = [] ∨
        ∃ Δ2, Δ = Δ2 ++ [AgentEventM.cancelled] ∧ Δ2.filter isTerminal = [])
  | .error _ => ∃ Δ, r.1.events = base ++ Δ ∧ Δ.filter isTerminal = []

/-- Prepending terminal-free events preserves the discipline. -/
theorem loopEventsSpec_compose (base : List AgentEventM) (Δ0 : List AgentEventM)
    (hf0 : Δ0.filter isTerminal = [])
    (r : LoopSt × Except AgentErrorM AgentRunResultM)
    (h : loopEventsSpec (base ++ Δ0) r) : loopEventsSpec base r := by
  unfold loopEventsSpec at h ⊢
  cases hR : r.2 with
  | ok res =>
    rw [hR] at h
    obtain ⟨Δ, u, hev, hfree⟩ := h
    exact ⟨Δ0 ++ Δ, u, by rw [hev]; simp [List.append_assoc],
      by simp [List.filter_append, hf0, hfree]⟩
  | error e =>
    cases e with
    | llmError m =>
      rw [hR] at h
      obtain ⟨Δ, hev, hfree⟩ := h
      exact ⟨Δ0 ++ Δ, by rw [hev]; simp [List.append_assoc],
        by simp [List.filter_append, hf0, hfree]⟩
    | configError m =>
      rw [hR] at h
      obtain ⟨Δ, hev, hfree⟩ := h
      exact ⟨Δ0 ++ Δ, by rw [hev]; simp [List.append_assoc],
        by simp [List.filter_append, hf0, hfree]⟩
    | maxIterationsReached =>
      rw [hR] at h
      obtain ⟨Δ, m, hev, hfree⟩ := h
      exact ⟨Δ0 ++ Δ, m, by rw [hev]; simp [List.append_assoc],
        by simp [List.filter_append, hf0, hfree]⟩
    | cancelledErr =>
      rw [hR] at h
      obtain ⟨Δ, hev, hd⟩ := h
      refine ⟨Δ0 ++ Δ, by rw [hev]; simp [List.append_assoc], ?_⟩
      rcases hd with hfree | ⟨Δ2, he2, hf2⟩
      · exact Or.inl (by simp [List.filter_append, hf0, hfree])
      · exact Or.inr ⟨Δ0 ++ Δ2, by rw [he2]; simp [List.append_assoc],
          by simp [List.filter_append, hf0, hf2]⟩

/-- Every loop run obeys the terminal-event discipline, provided the LLM
oracle produces only the errors the HTTP client can produce. -/
theorem runLoop_spec (env : LoopEnv) (cfg : AgentConfigM)
    (htx : env.hasEventTx = true)
    (hllm : ∀ i, env.llm i ≠ .error .maxIterationsReached) :
    ∀ fuel iter st, loopEventsSpec st.events (runLoop env cfg fuel iter st) := by
  intro fuel
  induction fuel with
  | zero =>
    intro iter st
    simp only [runLoop]
    show loopEventsSpec st.events (_, Except.error AgentErrorM.maxIterationsReached)
    unfold loopEventsSpec
    refine ⟨[], "Agent reached maximum iterations (" ++
      toString cfg.max_iterations ++ ") without completing", ?_, rfl⟩
    rw [emit_events_tx _ _ _ htx]
    simp
  | succ fuel ih =>
    intro iter st
    simp only [runLoop]
    cases hcan : (checkCancelled env st).1 with
    | true =>
      rw [if_pos rfl]
      show loopEventsSpec st.events (_, Except.error AgentErrorM.cancelledErr)
      unfold loopEventsSpec
      refine ⟨[AgentEventM.cancelled], ?_, Or.inr ⟨[], rfl, rfl⟩⟩
      rw [emit_events_tx _ _ _ htx, checkCancelled_events]
    | false =>
      simp only [Bool.false_eq_true, if_false]
      split
      · rename_i e heq
        show loopEventsSpec st.events ((checkCancelled env st).2, Except.error e)
        cases e with
        | llmError m => exact ⟨[], by rw [checkCancelled_events]; simp, rfl⟩
        | configError m => exact ⟨[], by rw [checkCancelled_events]; simp, rfl⟩
        | maxIterationsReached => exact absurd heq (hllm iter)
        | cancelledErr =>
          exact ⟨[], by rw [checkCancelled_events]; simp, Or.inl rfl⟩
      · rename_i resp heq
        split
        · show loopEventsSpec st.events (_, Except.ok _)
          unfold loopEventsSpec
          refine ⟨[], mergeUsage (checkCancelled env st).2.total_usage resp.usage,
            ?_, rfl⟩
          rw [emit_events_tx _ _ _ htx]
          show (checkCancelled env st).2.events ++ _ = _
          rw [checkCancelled_events]
          simp
        · rcases processToolCalls_spec env cfg htx resp.tool_calls
            ⟨(checkCancelled env st).2.events,
             (checkCancelled env st).2.conversation ++
               [MessageM.assistant_with_tools resp.content resp.tool_calls],
             (checkCancelled env st).2.tool_results,
             mergeUsage (checkCancelled env st).2.total_usage resp.usage,
             (checkCancelled env st).2.cancelIdx, (checkCancelled env st).2.waitIdx,
             (checkCancelled env st).2.dispatchIdx⟩ with
            ⟨st3, h3, hc3⟩ | ⟨st3, h3, hh3⟩
          · rw [h3]
            show loopEventsSpec st.events (runLoop env cfg fuel (iter + 1) st3)
            obtain ⟨Δ1, he1, hf1⟩ := hc3
            have hbe : st3.events = st.events ++ Δ1 := by
              rw [he1]
              show (checkCancelled env st).2.events ++ Δ1 = _
              rw [checkCancelled_events]
            have hspec := ih (iter + 1) st3
            rw [hbe] at hspec
            exact loopEventsSpec_compose st.events Δ1 hf1 _ hspec
          · rw [h3]
            show loopEventsSpec st.events (st3, Except.error AgentErrorM.cancelledErr)
            unfold loopEventsSpec
            obtain ⟨Δ1, he1, hd1⟩ := hh3
            refine ⟨Δ1, ?_, hd1⟩
            rw [he1]
            show (checkCancelled env st).2.events ++ Δ1 = _
            rw [checkCancelled_events]

/-- Rebasing a loop-discipline fact along an equality of base traces. -/
theorem loopEventsSpec_of_eq (b1 b2 : List AgentEventM) (h : b1 = b2)
    (r : LoopSt × Except AgentErrorM AgentRunResultM)
    (hs : loopEventsSpec b1 r) : loopEventsSpec b2 r := h ▸ hs

/-- A full agent run obeys the terminal-event discipline relative to the
Start event it emits first. -/
theorem run_agent_events (env : LoopEnv) (cfg : AgentConfigM)
    (task sp : String) (msgs : List MessageM)
    (htx : env.hasEventTx = true)
    (hllm : ∀ i, env.llm i ≠ Except.error AgentErrorM.maxIterationsReached) :
    loopEventsSpec [AgentEventM.start task] (run_agent env cfg task sp msgs) := by
  simp only [run_agent]
  refine loopEventsSpec_of_eq _ _ ?_ _
    (runLoop_spec env cfg htx hllm cfg.max_iterations 0 _)
  show (emit env ⟨[], [], [], none, 0, 0, 0⟩ (AgentEventM.start task)).events = _
  rw [emit_events_tx _ _ _ htx]
  rfl

/-- The terminal-event discipline of one command invocation: either the run
was rejected before any event (empty stream), or the last event is terminal,
there are one or two terminal events in total, and a successful result goes
with exactly one terminal event, the trailing Complete. -/
def terminalDiscipline (o : NativeOutcome) : Prop :=
  o.events = [] ∨
  ((∃ e, o.events.getLast? = some e ∧ isTerminal e = true) ∧
   1 ≤ terminalCount o.events ∧ terminalCount o.events ≤ 2 ∧
   ∀ r, o.result = Except.ok r → r.success = true →
     terminalCount o.events = 1 ∧
     ∃ s u, o.events.getLast? = some (AgentEventM.complete s u) ∧
       r.response = some s)

/-- Discipline of the success outcome built by runNativeCore. -/
theorem discOk (t resp : String) (n : Nat) (evs : List AgentEventM)
    (st : NativeState)
    (h : ∃ Δ u, evs = [AgentEventM.start t] ++ Δ ++
        [AgentEventM.complete resp u] ∧ Δ.filter isTerminal = []) :
    terminalDiscipline ⟨Except.ok ⟨true, some resp, none, n⟩, evs, st⟩ := by
  obtain ⟨Δ, u, hev, hfree⟩ := h
  simp only [terminalDiscipline]
  right
  have hcount : terminalCount evs = 1 := by
    rw [hev]
    simp [terminalCount, List.filter_append, hfree, isTerminal]
  refine ⟨⟨AgentEventM.complete resp u, ?_, rfl⟩, ?_, ?_, ?_⟩
  · rw [hev]
    exact List.getLast?_concat _
  · omega
  · omega
  · intro r hr hs
    injection hr with h2
    subst h2
    exact ⟨hcount, resp, u, by rw [hev]; exact List.getLast?_concat _, rfl⟩

/-- Discipline of the failure outcome built by runNativeCore: the command
surface appends its own Error event after the loop events. -/
theorem discErr (t m : String) (n : Nat) (evs : List AgentEventM)
    (st : NativeState)
    (h : (∃ Δ, evs = [AgentEventM.start t] ++ Δ ∧
          (Δ.filter isTerminal = [] ∨
            ∃ Δ2, Δ = Δ2 ++ [AgentEventM.cancelled] ∧
              Δ2.filter isTerminal = [])) ∨
         (∃ Δ m2, evs = [AgentEventM.start t] ++ Δ ++ [AgentEventM.error m2] ∧
           Δ.filter isTerminal = [])) :
    terminalDiscipline
      ⟨Except.ok ⟨false, none, some m, n⟩, evs ++ [AgentEventM.error m], st⟩ := by
  simp only [terminalDiscipline]
  right
  have hcount : terminalCount (evs ++ [AgentEventM.error m]) = 1 ∨
      terminalCount (evs ++ [AgentEventM.error m]) = 2 := by
    rcases h with ⟨Δ, hev, hd⟩ | ⟨Δ, m2, hev, hfree⟩
    · rcases hd with hfree | ⟨Δ2, he2, hf2⟩
      · left
        rw [hev]
        simp [terminalCount, List.filter_append, hfree, isTerminal]
      · right
        rw [hev, he2]
        simp [terminalCount, List.filter_append, hf2, isTerminal]
    · right
      rw [hev]
      simp [terminalCount, List.filter_append, hfree, isTerminal]
  refine ⟨⟨AgentEventM.error m, List.getLast?_concat _, rfl⟩, ?_, ?_, ?_⟩
  · rcases hcount with h1 | h1 <;> omega
  · rcases hcount with h1 | h1 <;> omega
  · intro r hr hs
    injection hr with h2
    subst h2
    exact absurd hs Bool.false_ne_true

/-- The registered part of the command obeys the terminal-event discipline. -/
theorem runNativeCore_events (env : LoopEnv) (ne : NativeEnv) (ns : NativeState)
    (htx : env.hasEventTx = true)
    (hllm : ∀ i, env.llm i ≠ Except.error AgentErrorM.maxIterationsReached) :
    terminalDiscipline (runNativeCore env ne ns) := by
  unfold runNativeCore
  split
  · exact Or.inl rfl
  · rename_i agent_config heq
    have hle := run_agent_events env agent_config ne.task ne.system_prompt
      ne.messages htx hllm
    unfold loopEventsSpec at hle
    split
    · rename_i result heq2
      rw [heq2] at hle
      obtain ⟨Δ, u, hev, hfree⟩ := hle
      exact discOk _ _ _ _ _ ⟨Δ, u, hev, hfree⟩
    · rename_i e heq2
      rw [heq2] at hle
      cases e with
      | llmError m0 =>
        obtain ⟨Δ, hev, hfree⟩ := hle
        exact discErr _ _ _ _ _ (Or.inl ⟨Δ, hev, Or.inl hfree⟩)
      | configError m0 =>
        obtain ⟨Δ, hev, hfree⟩ := hle
        exact discErr _ _ _ _ _ (Or.inl ⟨Δ, hev, Or.inl hfree⟩)
      | maxIterationsReached =>
        obtain ⟨Δ, m2, hev, hfree⟩ := hle
        exact discErr _ _ _ _ _ (Or.inr ⟨Δ, m2, hev, hfree⟩)
      | cancelledErr =>
        obtain ⟨Δ, hev, hd⟩ := hle
        exact discErr _ _ _ _ _ (Or.inl ⟨Δ, hev, hd⟩)

/-- C4: every run started through the command surface either emits no
events (rejected before the agent starts) or ends in a terminal event; a
successful run emits exactly one terminal event, the trailing Complete,
but a failed run can carry up to two terminal events, because the command
surface appends its own Error event after the Cancelled or Error event the
loop already emitted. -/
theorem c4_terminal_events (env : LoopEnv) (ne : NativeEnv) (ns : NativeState)
    (htx : env.hasEventTx = true)
    (hllm : ∀ i, env.llm i ≠ Except.error AgentErrorM.maxIterationsReached) :
    terminalDiscipline (run_native_agent env ne ns) := by
  unfold run_native_agent
  repeat' split
  all_goals first
    | exact Or.inl rfl
    | exact runNativeCore_events env ne ns htx hllm

/-- A loop environment whose cancellation token fires immediately. -/
def envCancelled : LoopEnv :=
  ⟨fun _ => .ok ⟨some "done", [], none⟩, fun _ => true, fun _ => .timeout,
   fun _ => .ok "", true, true, true⟩

/-- C4 counterexample: a cancelled run emits two terminal events, the
loop-level Cancelled followed by the command-level Error, refuting the
exactly-one-terminal-event sentence. -/
theorem c4_counterexample :
    (run_native_agent envCancelled neGood nsEmpty).events =
      [AgentEventM.start "t", AgentEventM.cancelled,
        AgentEventM.error "Request cancelled"] ∧
    terminalCount (run_native_agent envCancelled neGood nsEmpty).events = 2 :=
  ⟨rfl, rfl⟩

/-- Witness for C4 (amended) at a concrete input. -/
theorem c4_witness :
    terminalDiscipline (run_native_agent envSimple neGood nsEmpty) :=
  c4_terminal_events envSimple neGood nsEmpty rfl
    (fun _ h => Except.noConfusion h)


end VsWrite
